import Mathlib

/-!
# Verification of `docs/sprints/ledger.py`

A shallow embedding of the sprint-ledger CLI: the JSON value space it
manipulates (`Json`), Python `dict` operations on insertion-ordered
association lists, the `json.dump(…, indent=2)` serializer and the
`json.load` parser (both modelled from CPython's `json` package, which the
script calls), and the three commands `stats`, `start`, `complete` plus the
`main` dispatcher.

Modelling conventions:
* Python dicts are insertion-ordered association lists with unique keys;
  `d[k] = v` replaces in place, `d.setdefault(k, v)` appends at the end.
* A Python-level crash (uncaught `KeyError`, `ValueError`, `TypeError`,
  `json` parse error) is `Option.none`; `sys.exit(1)` is an ordinary result
  with exit code 1.
* JSON numbers are modelled as integers only (the ledger never stores
  floats); `NaN`/`Infinity` extensions of CPython's parser are likewise not
  modelled, and a lone surrogate `\uXXXX` escape (representable in a Python
  `str` but not in a Lean `Char`) makes the modelled parser fail.
* Timestamps (`_now()`) are arbitrary opaque strings passed as parameters;
  `cmd_complete` calls `_now()` twice, so it takes two of them.
-/

set_option maxRecDepth 8000

namespace SprintLedger

/-- The JSON value space manipulated by the script: object members are kept
as an insertion-ordered association list, mirroring a Python `dict`. -/
inductive Json where
  | null : Json
  | bool (b : Bool) : Json
  | num (n : Int) : Json
  | str (s : String) : Json
  | arr (elems : List Json) : Json
  | obj (members : List (String × Json)) : Json
deriving Repr

mutual
/-- Boolean equality on `Json` (hand-rolled: `deriving DecidableEq` does not
handle the nested induction). -/
def beqJ : Json → Json → Bool
  | .null, .null => true
  | .bool a, .bool b => a = b
  | .num a, .num b => a = b
  | .str a, .str b => a = b
  | .arr xs, .arr ys => beqLA xs ys
  | .obj xs, .obj ys => beqLO xs ys
  | _, _ => false
def beqLA : List Json → List Json → Bool
  | [], [] => true
  | x :: xs, y :: ys => beqJ x y && beqLA xs ys
  | _, _ => false
def beqLO : List (String × Json) → List (String × Json) → Bool
  | [], [] => true
  | x :: xs, y :: ys => (x.1 = y.1 : Bool) && beqJ x.2 y.2 && beqLO xs ys
  | _, _ => false
end

mutual
theorem beqJ_iff : ∀ a b : Json, beqJ a b = true ↔ a = b
  | .null, b => by cases b <;> simp [beqJ]
  | .bool x, b => by cases b <;> simp [beqJ]
  | .num x, b => by cases b <;> simp [beqJ]
  | .str x, b => by cases b <;> simp [beqJ]
  | .arr xs, b => by
    cases b <;> simp [beqJ]
    exact beqLA_iff xs _
  | .obj xs, b => by
    cases b <;> simp [beqJ]
    exact beqLO_iff xs _
theorem beqLA_iff : ∀ a b : List Json, beqLA a b = true ↔ a = b
  | [], b => by cases b <;> simp [beqLA]
  | x :: xs, b => by
    cases b with
    | nil => simp [beqLA]
    | cons y ys => simp [beqLA, beqJ_iff x y, beqLA_iff xs ys]
theorem beqLO_iff : ∀ a b : List (String × Json), beqLO a b = true ↔ a = b
  | [], b => by cases b <;> simp [beqLO]
  | x :: xs, b => by
    cases b with
    | nil => simp [beqLO]
    | cons y ys =>
      simp [beqLO, beqJ_iff x.2 y.2, beqLO_iff xs ys, Prod.ext_iff,
        and_assoc]
end

instance : DecidableEq Json := fun a b => decidable_of_iff _ (beqJ_iff a b)

mutual
/-- Size measure used for the custom induction principle over `Json`. -/
def sizeJ : Json → Nat
  | .arr xs => 1 + sizeLA xs
  | .obj kvs => 1 + sizeLO kvs
  | _ => 1
def sizeLA : List Json → Nat
  | [] => 1
  | x :: xs => 1 + sizeJ x + sizeLA xs
def sizeLO : List (String × Json) → Nat
  | [] => 1
  | kv :: kvs => 1 + sizeJ kv.2 + sizeLO kvs
end

theorem sizeJ_lt_of_mem_arr {x : Json} {xs : List Json} (hx : x ∈ xs) :
    sizeJ x < sizeJ (Json.arr xs) := by
  have : sizeJ x < 1 + sizeLA xs := by
    induction xs with
    | nil => cases hx
    | cons y ys ih =>
      rcases List.mem_cons.mp hx with h | h
      · subst h; simp [sizeLA]; omega
      · have := ih h; simp [sizeLA] at this ⊢; omega
  simpa [sizeJ] using this

theorem sizeJ_lt_of_mem_obj {kv : String × Json} {kvs : List (String × Json)}
    (hkv : kv ∈ kvs) : sizeJ kv.2 < sizeJ (Json.obj kvs) := by
  have : sizeJ kv.2 < 1 + sizeLO kvs := by
    induction kvs with
    | nil => cases hkv
    | cons y ys ih =>
      rcases List.mem_cons.mp hkv with h | h
      · subst h; simp [sizeLO]; omega
      · have := ih h; simp [sizeLO] at this ⊢; omega
  simpa [sizeJ] using this

/-- Structural induction over `Json` that hands membership-based inductive
hypotheses to the array and object cases. -/
def Json.ind {P : Json → Prop}
    (hnull : P .null) (hbool : ∀ b, P (.bool b)) (hnum : ∀ n, P (.num n))
    (hstr : ∀ s, P (.str s))
    (harr : ∀ xs, (∀ x ∈ xs, P x) → P (.arr xs))
    (hobj : ∀ kvs, (∀ kv ∈ kvs, P kv.2) → P (.obj kvs)) :
    ∀ j, P j
  | .null => hnull
  | .bool b => hbool b
  | .num n => hnum n
  | .str s => hstr s
  | .arr xs => harr xs (fun x hx =>
      Json.ind hnull hbool hnum hstr harr hobj x)
  | .obj kvs => hobj kvs (fun kv hkv =>
      Json.ind hnull hbool hnum hstr harr hobj kv.2)
termination_by j => sizeJ j
decreasing_by
  · exact sizeJ_lt_of_mem_arr hx
  · exact sizeJ_lt_of_mem_obj hkv

/-! ## Python `dict` operations (insertion-ordered association lists) -/

/-- `d.get(k)` / `d[k]` lookup. -/
def dictGet (kvs : List (String × Json)) (k : String) : Option Json :=
  match kvs with
  | [] => none
  | (k', v) :: rest => if k' = k then some v else dictGet rest k

/-- `d[k] = v`: replace in place if the key is present, else append. -/
def dictSet (kvs : List (String × Json)) (k : String) (v : Json) :
    List (String × Json) :=
  match kvs with
  | [] => [(k, v)]
  | (k', v') :: rest =>
    if k' = k then (k, v) :: rest else (k', v') :: dictSet rest k v

/-- `d.setdefault(k, dflt)`, restricted to its effect on the dict: if the key
is absent, append it bound to `dflt`. (The returned value is
`(dictGet kvs k).getD dflt`.) -/
def dictSetdefault (kvs : List (String × Json)) (k : String) (dflt : Json) :
    List (String × Json) :=
  if (dictGet kvs k).isSome then kvs else kvs ++ [(k, dflt)]

/-- The object members of a `Json` value, when it is an object (a Python
operation such as `.get`/`.setdefault`/`[...]` on a non-dict raises). -/
def Json.asObj : Json → Option (List (String × Json))
  | .obj kvs => some kvs
  | _ => none

theorem dictGet_dictSet_self (kvs : List (String × Json)) (k : String) (v : Json) :
    dictGet (dictSet kvs k v) k = some v := by
  induction kvs with
  | nil => simp [dictGet, dictSet]
  | cons kv rest ih =>
    by_cases h : kv.1 = k
    · simp [dictGet, dictSet, h]
    · simp [dictGet, dictSet, h, ih]

theorem dictGet_dictSet_ne (kvs : List (String × Json)) (k k' : String) (v : Json)
    (h : k' ≠ k) : dictGet (dictSet kvs k v) k' = dictGet kvs k' := by
  have hne : ¬ k = k' := fun h' => h (Eq.symm h')
  induction kvs with
  | nil => simp [dictGet, dictSet, hne]
  | cons kv rest ih =>
    by_cases hk : kv.1 = k
    · have hne2 : ¬ kv.1 = k' := by rw [hk]; exact hne
      simp [dictGet, dictSet, hk, hne, hne2]
    · by_cases hk' : kv.1 = k'
      · simp [dictGet, dictSet, hk, hk', h]
      · simp [dictGet, dictSet, hk, hk', ih]

theorem dictGet_append_left {xs : List (String × Json)} {k : String} {v : Json}
    (h : dictGet xs k = some v) (ys : List (String × Json)) :
    dictGet (xs ++ ys) k = some v := by
  induction xs with
  | nil => simp [dictGet] at h
  | cons kv rest ih =>
    by_cases hk : kv.1 = k
    · simp [dictGet, hk] at h ⊢; exact h
    · simp [dictGet, hk] at h ⊢; exact ih h

theorem dictGet_append_right {xs : List (String × Json)} {k : String}
    (h : dictGet xs k = none) (ys : List (String × Json)) :
    dictGet (xs ++ ys) k = dictGet ys k := by
  induction xs with
  | nil => simp
  | cons kv rest ih =>
    by_cases hk : kv.1 = k
    · simp [dictGet, hk] at h
    · simp [dictGet, hk] at h ⊢; exact ih h

theorem dictGet_dictSetdefault_self (kvs : List (String × Json)) (k : String)
    (dflt : Json) :
    dictGet (dictSetdefault kvs k dflt) k = some ((dictGet kvs k).getD dflt) := by
  unfold dictSetdefault
  cases h : dictGet kvs k with
  | some v => simp [h]
  | none =>
    simp only [h, Option.isSome_none, Bool.false_eq_true, if_false,
      Option.getD_none]
    rw [dictGet_append_right h]
    simp [dictGet]

theorem dictGet_dictSetdefault_ne (kvs : List (String × Json)) (k k' : String)
    (dflt : Json) (h : k' ≠ k) :
    dictGet (dictSetdefault kvs k dflt) k' = dictGet kvs k' := by
  have hne : ¬ k = k' := fun h' => h (Eq.symm h')
  unfold dictSetdefault
  cases hg : dictGet kvs k with
  | some v => simp [hg]
  | none =>
    simp only [hg, Option.isSome_none, Bool.false_eq_true, if_false]
    cases hg' : dictGet kvs k' with
    | some v => exact dictGet_append_left hg' _
    | none => rw [dictGet_append_right hg']; simp [dictGet, hne]

/-! ## `int()` and the `f"{n:03d}"` key format -/

/-- Is `c` an ASCII decimal digit? -/
def isDigit (c : Char) : Bool := decide ('0' ≤ c ∧ c ≤ '9')

/-- Whitespace stripped by Python's `int()` (ASCII subset; exotic Unicode
whitespace and PEP 515 underscores are not modelled). -/
def isPySpace (c : Char) : Bool :=
  c = ' ' ∨ c = '\t' ∨ c = '\n' ∨ c = '\r' ∨ c = '\x0b' ∨ c = '\x0c'

/-- Value of a digit run, most significant first. -/
def digitsVal (ds : List Char) : Nat :=
  ds.foldl (fun acc c => acc * 10 + (c.toNat - 48)) 0

/-- Model of Python `int(s)` for decimal strings: optional surrounding
whitespace, optional sign, then one or more digits. `none` is a
`ValueError`, which the script never catches. -/
def pyInt? (s : String) : Option Int :=
  let cs := (s.toList.dropWhile isPySpace).reverse.dropWhile isPySpace |>.reverse
  let (neg, ds) : Bool × List Char :=
    match cs with
    | '-' :: rest => (true, rest)
    | '+' :: rest => (false, rest)
    | _ => (false, cs)
  if ds ≠ [] ∧ ds.all isDigit then
    some (if neg then -(digitsVal ds : Int) else (digitsVal ds : Int))
  else none

/-- The digit character for `n % 10`. -/
def digitChar (n : Nat) : Char := Char.ofNat (48 + n % 10)

/-- Decimal digits of `n`, most significant first, prepended to `acc`.
Fuel-structural (any `fuel > n` computes the digits) so that it evaluates
by kernel reduction. -/
def natDigitsAux : Nat → Nat → List Char → List Char
  | 0, _, acc => acc
  | fuel + 1, n, acc =>
    if n < 10 then digitChar n :: acc
    else natDigitsAux fuel (n / 10) (digitChar (n % 10) :: acc)

/-- Decimal digits of `n`, most significant first. -/
def natDigits (n : Nat) : List Char := natDigitsAux (n + 1) n []

/-- Model of Python `str(n)` for an `int`. -/
def pyStr (n : Int) : String :=
  if n < 0 then String.mk ('-' :: natDigits n.natAbs)
  else String.mk (natDigits n.toNat)

/-- Model of `f"{n:03d}"`: zero-pad to width 3, the sign (if any) before the
padding. This is the sprint-key normalisation used by `start`, `complete`
and `stats`. -/
def formatKey (n : Int) : String :=
  let sign : List Char := if n < 0 then ['-'] else []
  let ds := natDigits n.natAbs
  if 3 ≤ sign.length + ds.length then String.mk (sign ++ ds)
  else String.mk (sign ++ List.replicate (3 - (sign.length + ds.length)) '0' ++ ds)

/-! ## The commands (`cmd_start`, `cmd_complete`, discovery, `cmd_stats`)

Each command model takes the in-memory ledger document (the result of
`_load`) and returns `none` for an uncaught Python exception, or the
document it saves (if any), the process exit code, and the printed lines. -/

/-- Result of one command: the document passed to `_save` (or `none` when no
save happens), the exit code, and the lines printed to stdout. -/
structure CmdOut where
  saved : Option Json
  exitCode : Nat
  output : List String
deriving Repr, DecidableEq

/-- `cmd_start(num)` on the loaded document `data`, with `_now()` returning
`now`. Crashes (`none`) on `int(num)` failure, a missing/non-dict
`data["sprints"]`, or a non-dict entry. -/
def cmd_start (now : String) (num : String) (data : Json) : Option CmdOut := do
  let n ← pyInt? num
  let key := formatKey n
  let top ← data.asObj
  let sprintsJ ← dictGet top ("sprints")
  let sprints ← sprintsJ.asObj
  let entry ← ((dictGet sprints key).getD (Json.obj [])).asObj
  if dictGet entry ("status") = some (Json.str ("completed")) then
    pure ⟨none, 1,
      [("Sprint ") ++ key ++ (" is already completed — cannot reopen.")]⟩
  else
    let e1 := dictSet entry ("status") (Json.str ("in_progress"))
    let e2 := dictSetdefault e1 ("started_at") (Json.str now)
    let sprints2 :=
      dictSet (dictSetdefault sprints key (Json.obj [])) key (Json.obj e2)
    let data2 := Json.obj (dictSet top ("sprints") (Json.obj sprints2))
    pure ⟨some data2, 0, [("Sprint ") ++ key ++ (" marked in_progress.")]⟩

/-- `cmd_complete(num)` on the loaded document `data`. The script calls
`_now()` twice (once as the `setdefault` argument for `started_at`, once
for `completed_at`), so the two timestamps are separate parameters. -/
def cmd_complete (now1 now2 : String) (num : String) (data : Json) :
    Option CmdOut := do
  let n ← pyInt? num
  let key := formatKey n
  let top ← data.asObj
  let sprintsJ ← dictGet top ("sprints")
  let sprints ← sprintsJ.asObj
  let entry ← ((dictGet sprints key).getD (Json.obj [])).asObj
  let e1 := dictSet entry ("status") (Json.str ("completed"))
  let e2 := dictSetdefault e1 ("started_at") (Json.str now1)
  let e3 := dictSet e2 ("completed_at") (Json.str now2)
  let sprints2 :=
    dictSet (dictSetdefault sprints key (Json.obj [])) key (Json.obj e3)
  let data2 := Json.obj (dictSet top ("sprints") (Json.obj sprints2))
  pure ⟨some data2, 0, [("Sprint ") ++ key ++ (" marked completed.")]⟩

/-- `p` is a prefix of `c` (model of `str.startswith`, over characters). -/
def listIsPrefix : List Char → List Char → Bool
  | [], _ => true
  | _ :: _, [] => false
  | p :: ps, c :: cs => p = c && listIsPrefix ps cs

/-- The number embedded in one directory entry, when it has the
`SPRINT-<int>.md` shape (`int(name[7:-3])`); `none` models both a
non-matching name and the swallowed `ValueError`. -/
def parseSprintName (name : String) : Option Int :=
  let cs := name.toList
  if listIsPrefix (("SPRINT-").toList) cs
      && listIsPrefix ((".md").toList.reverse) cs.reverse then
    let mid := cs.drop 7
    pyInt? (String.mk (mid.take (mid.length - 3)))
  else none

/-- `_discover_sprints()` over the given directory listing. Python's
`sorted` is modelled by `List.insertionSort (· ≤ ·)`: on integers both are
exactly the ascending reordering (equal elements are indistinguishable, so
stability is unobservable). Note the source keeps duplicates: two distinct
names parsing to the same integer each contribute an element. -/
def _discover_sprints (listing : List String) : List Int :=
  List.insertionSort (· ≤ ·) (listing.filterMap parseSprintName)

/-- `f"{s:<{w}}"`: left-justify by padding with spaces to width `w`. -/
def ljust (s : String) (w : Nat) : String :=
  s ++ String.mk (List.replicate (w - s.length) ' ')

/-- One table cell `f"{v:<w}"`. Strings are padded; ints (and bools, which
Python formats through `int.__format__`) print their numeric form; `None`,
lists and dicts raise `TypeError` under a width format spec. -/
def formatCell (w : Nat) : Json → Option String
  | .str s => some (ljust s w)
  | .num n => some (ljust (pyStr n) w)
  | .bool b => some (ljust (if b then ("1") else ("0")) w)
  | _ => none

/-- The stats header line (`col_w = 8`). -/
def statsHeader : String :=
  ljust ("Sprint") 8 ++ ("  ") ++ ljust ("Status") 12 ++ ("  ") ++
    ljust ("Started") 22 ++ ("  ") ++ ljust ("Completed") 22

/-- The `"-" * 72` separator line. -/
def statsRule : String := String.mk (List.replicate 72 '-')

/-- One `stats` table row for sprint number `n`. -/
def statsRow (sprints : List (String × Json)) (n : Int) : Option String := do
  let key := formatKey n
  let entry ← ((dictGet sprints key).getD (Json.obj [])).asObj
  let status ← formatCell 12 ((dictGet entry ("status")).getD (Json.str ("pending")))
  let started ← formatCell 22 ((dictGet entry ("started_at")).getD (Json.str ("-")))
  let completed ←
    formatCell 22 ((dictGet entry ("completed_at")).getD (Json.str ("-")))
  pure (("SPRINT-") ++ key ++ ("  ") ++ status ++ ("  ") ++ started ++ ("  ")
    ++ completed)

/-- `cmd_stats()` on the loaded document: the printed lines, or `none` for a
crash. (`here` is the directory `_HERE` named in the empty-listing message;
a crash while formatting a row is modelled as the whole command crashing,
output granularity being irrelevant to the stated properties.) -/
def cmd_stats (here : String) (listing : List String) (data : Json) :
    Option (List String) := do
  let top ← data.asObj
  let sprintsJ := (dictGet top ("sprints")).getD (Json.obj [])
  let nums := _discover_sprints listing
  if nums = [] then
    pure [("No SPRINT-NNN.md files found in ") ++ here]
  else do
    let sprints ← sprintsJ.asObj
    let rows ← nums.mapM (statsRow sprints)
    pure (statsHeader :: statsRule :: rows)

/-! ## `json.dump(data, f, indent=2)` — the serializer

Modelled from CPython's `json.encoder` with `indent=2`, default separators
`(',', ': ')` and `ensure_ascii=True`: every character outside `0x20..0x7e`
is `\uXXXX`-escaped (as a surrogate pair above `0xffff`), with the short
escapes for `\"`, `\\`, `\b`, `\f`, `\n`, `\r`, `\t`. -/

/-- Lowercase hex digit for `n % 16` (CPython emits `'\u%04x'`). -/
def hexDig (n : Nat) : Char :=
  if n % 16 < 10 then Char.ofNat (48 + n % 16) else Char.ofNat (87 + n % 16)

/-- Four lowercase hex digits of `n < 0x10000`. -/
def hex4 (n : Nat) : List Char :=
  [hexDig (n / 4096), hexDig (n / 256), hexDig (n / 16), hexDig n]

/-- One character of a JSON string, escaped per `ensure_ascii=True`. -/
def escChar (c : Char) : List Char :=
  if c = '"' then ['\\', '"']
  else if c = '\\' then ['\\', '\\']
  else if c = '\x08' then ['\\', 'b']
  else if c = '\x0c' then ['\\', 'f']
  else if c = '\n' then ['\\', 'n']
  else if c = '\r' then ['\\', 'r']
  else if c = '\t' then ['\\', 't']
  else if 32 ≤ c.toNat ∧ c.toNat ≤ 126 then [c]
  else if c.toNat ≤ 65535 then '\\' :: 'u' :: hex4 c.toNat
  else
    '\\' :: 'u' :: hex4 (55296 + (c.toNat - 65536) / 1024) ++
      '\\' :: 'u' :: hex4 (56320 + (c.toNat - 65536) % 1024)

/-- A JSON string literal: quotes around the escaped characters. -/
def serStr (s : List Char) : List Char :=
  '"' :: (s.flatMap escChar ++ ['"'])

/-- The characters of Python `str(n)` / `json` integer output. -/
def intChars (n : Int) : List Char :=
  if n < 0 then '-' :: natDigits n.natAbs else natDigits n.toNat

/-- `'\n'` plus the two-space indentation at nesting level `lvl`. -/
def nlInd (lvl : Nat) : List Char :=
  '\n' :: List.replicate (2 * lvl) ' '

mutual
/-- `json.dumps(j, indent=2)` at nesting level `lvl`, as characters. -/
def serVal (lvl : Nat) : Json → List Char
  | .bool false => ['f', 'a', 'l', 's', 'e']
  | .bool true => ['t', 'r', 'u', 'e']
  | .null => ['n', 'u', 'l', 'l']
  | .num n => intChars n
  | .str s => serStr s.toList
  | .arr [] => ['[', ']']
  | .arr (x :: xs) =>
    '[' :: (nlInd (lvl + 1) ++ serVal (lvl + 1) x ++ serItemsA (lvl + 1) xs
      ++ nlInd lvl ++ [']'])
  | .obj [] => ['{', '}']
  | .obj (kv :: kvs) =>
    '{' :: (nlInd (lvl + 1) ++ serMember (lvl + 1) kv ++ serItemsO (lvl + 1) kvs
      ++ nlInd lvl ++ ['}'])
/-- One object member, `"key": value`. -/
def serMember (lvl : Nat) : String × Json → List Char
  | (k, v) => serStr k.toList ++ ':' :: ' ' :: serVal lvl v
/-- The `",\n<indent><item>"` continuation of a non-empty array. -/
def serItemsA (lvl : Nat) : List Json → List Char
  | [] => []
  | x :: xs => ',' :: (nlInd lvl ++ serVal lvl x ++ serItemsA lvl xs)
/-- The `",\n<indent><member>"` continuation of a non-empty object. -/
def serItemsO (lvl : Nat) : List (String × Json) → List Char
  | [] => []
  | kv :: kvs => ',' :: (nlInd lvl ++ serMember lvl kv ++ serItemsO lvl kvs)
end

/-- `_save(data)`: the full file contents written by the script —
`json.dump(data, f, indent=2)` followed by `f.write("\n")`. -/
def _save (data : Json) : String :=
  String.mk (serVal 0 data ++ ['\n'])

/-! ## `json.load` — the parser

Modelled from CPython's `json.decoder` in strict mode. Deviations, noted
here once: floats (`frac`/`exp` forms, `NaN`, `Infinity`) make the model
fail instead of producing a float, and a `\uXXXX` escape denoting a lone
surrogate (a valid Python `str` character, but not a Lean `Char`) also
fails. Neither shape is ever produced by `_save`. Duplicate keys in an
object literal follow `dict(pairs)`: last value wins, first position
wins. -/

/-- JSON whitespace (the decoder's `[ \t\n\r]*`). -/
def isJsonWs (c : Char) : Bool := c = ' ' ∨ c = '\t' ∨ c = '\n' ∨ c = '\r'

/-- Skip JSON whitespace. -/
def skipWs (cs : List Char) : List Char := cs.dropWhile isJsonWs

/-- Hex digit value (both cases), as in `\uXXXX` scanning. -/
def hexVal? (c : Char) : Option Nat :=
  if '0' ≤ c ∧ c ≤ '9' then some (c.toNat - 48)
  else if 'a' ≤ c ∧ c ≤ 'f' then some (c.toNat - 87)
  else if 'A' ≤ c ∧ c ≤ 'F' then some (c.toNat - 55)
  else none

/-- Value of four hex digits. -/
def hex4Val (a b c d : Char) : Option Nat := do
  let va ← hexVal? a
  let vb ← hexVal? b
  let vc ← hexVal? c
  let vd ← hexVal? d
  pure (((va * 16 + vb) * 16 + vc) * 16 + vd)

/-- A character from a code point, when it is one. -/
def mkChar? (n : Nat) : Option Char :=
  if n.isValidChar then some (Char.ofNat n) else none

/-- The two-character backslash escapes (`BACKSLASH` table). -/
def pyUnescape : Char → Option Char
  | '"' => some '"'
  | '\\' => some '\\'
  | '/' => some '/'
  | 'b' => some '\x08'
  | 'f' => some '\x0c'
  | 'n' => some '\n'
  | 'r' => some '\r'
  | 't' => some '\t'
  | _ => none

/-- Prepend a decoded character to a string-scan result. -/
def consRes (c : Char) : Option (List Char × List Char) →
    Option (List Char × List Char)
  | some (s, r) => some (c :: s, r)
  | none => none

/-- After a high surrogate `\uXXXX`, decode the expected low-surrogate
escape and recombine the pair. -/
def decodePair (hi : Nat) : List Char → Option (Char × List Char)
  | b1 :: b2 :: e1 :: e2 :: e3 :: e4 :: rest4 =>
    if b1 = '\\' ∧ b2 = 'u' then
      match hex4Val e1 e2 e3 e4 with
      | none => none
      | some lo =>
        if hi ≤ 56319 ∧ 56320 ≤ lo ∧ lo ≤ 57343 then
          (match mkChar? (65536 + (hi - 55296) * 1024 + (lo - 56320)) with
          | some ch => some (ch, rest4)
          | none => none)
        else none
    else none
  | _ => none

/-- Decode a `\uXXXX` escape (the input starts at the first hex digit):
surrogate pairs recombine; a lone surrogate fails (see the section
comment). -/
def decodeU : List Char → Option (Char × List Char)
  | a :: b :: c2 :: d :: rest3 =>
    (match hex4Val a b c2 d with
    | none => none
    | some hi =>
      if 55296 ≤ hi ∧ hi ≤ 57343 then decodePair hi rest3
      else
        match mkChar? hi with
        | some ch => some (ch, rest3)
        | none => none)
  | _ => none

/-- Decode one backslash escape (the input starts right after the
backslash): the decoded character and the remaining input. -/
def decodeEscape : List Char → Option (Char × List Char)
  | [] => none
  | e :: rest2 =>
    if e = 'u' then decodeU rest2
    else
      match pyUnescape e with
      | some ch => some (ch, rest2)
      | none => none

/-- `py_scanstring` after the opening quote: the decoded characters and the
input after the closing quote. Strict mode: a raw control character
(< 0x20) is an error. Fuel-structural; any fuel exceeding the input length
suffices. -/
def parseStrBody : Nat → List Char → Option (List Char × List Char)
  | 0, _ => none
  | _, [] => none
  | fuel + 1, c :: rest =>
    if c = '"' then some ([], rest)
    else if c = '\\' then
      match decodeEscape rest with
      | some (ch, rest2) => consRes ch (parseStrBody fuel rest2)
      | none => none
    else if c.toNat < 32 then none
    else consRes c (parseStrBody fuel rest)

/-- Longest digit run at the head. -/
def takeDigits : List Char → List Char × List Char
  | c :: cs =>
    if isDigit c then
      let (ds, r) := takeDigits cs
      (c :: ds, r)
    else ([], c :: cs)
  | [] => ([], [])

/-- After the digits of an integer token: a `frac`/`exp` continuation makes
the token a float, which this model rejects (see the section comment). -/
def intTail (v : Int) : List Char → Option (Int × List Char)
  | '.' :: _ => none
  | 'e' :: _ => none
  | 'E' :: _ => none
  | r => some (v, r)

/-- The digits of `NUMBER_RE` after the optional minus: `0|[1-9][0-9]*`. -/
def parseIntCore (neg : Bool) : List Char → Option (Int × List Char)
  | '0' :: r => intTail (if neg then -0 else 0) r
  | c :: r =>
    if isDigit c then
      let (ds, r2) := takeDigits r
      intTail (if neg then -(digitsVal (c :: ds) : Int)
        else (digitsVal (c :: ds) : Int)) r2
    else none
  | [] => none

/-- `NUMBER_RE` restricted to integers: `-?(0|[1-9][0-9]*)`, failing (see
the section comment) when a `frac`/`exp` part follows. -/
def parseIntTok : List Char → Option (Int × List Char)
  | '-' :: r => parseIntCore true r
  | cs => parseIntCore false cs

/-- A remainder that cannot extend a number token: empty, or headed by a
character that is neither a digit nor `.`/`e`/`E`. Every delimiter the
serializer emits after a number (`,`, `\n`, `]`, `}`) qualifies. -/
def numDelim : List Char → Bool
  | [] => true
  | c :: _ => !(isDigit c || c = '.' || c = 'e' || c = 'E')

/-- `dict(pairs)`: later bindings overwrite earlier ones in place. -/
def dictOfPairs (pairs : List (String × Json)) : List (String × Json) :=
  pairs.foldl (fun d kv => dictSet d kv.1 kv.2) []

mutual
/-- `_scan_once` at an exact position (callers skip whitespace), structural
on `fuel`; any `fuel` exceeding the input length suffices. -/
def parseVal : Nat → List Char → Option (Json × List Char)
  | 0, _ => none
  | fuel + 1, cs =>
    match cs with
    | [] => none
    | c :: rest =>
      if c = '"' then
        match parseStrBody fuel rest with
        | some (s, r) => some (Json.str (String.mk s), r)
        | none => none
      else if c = '{' then parseObjStart fuel rest
      else if c = '[' then parseArrStart fuel rest
      else if c = 'n' then
        match rest with
        | 'u' :: 'l' :: 'l' :: r => some (Json.null, r)
        | _ => none
      else if c = 't' then
        match rest with
        | 'r' :: 'u' :: 'e' :: r => some (Json.bool true, r)
        | _ => none
      else if c = 'f' then
        match rest with
        | 'a' :: 'l' :: 's' :: 'e' :: r => some (Json.bool false, r)
        | _ => none
      else
        match parseIntTok (c :: rest) with
        | some (n, r) => some (Json.num n, r)
        | none => none
/-- `JSONArray` after the `[`. -/
def parseArrStart : Nat → List Char → Option (Json × List Char)
  | 0, _ => none
  | fuel + 1, cs =>
    match skipWs cs with
    | [] => none
    | c :: r =>
      if c = ']' then some (Json.arr [], r)
      else
        match parseVal fuel (c :: r) with
        | some (v, r2) => parseArrLoop fuel [v] r2
        | none => none
/-- The `,`/`]` loop of `JSONArray`, carrying the elements so far. -/
def parseArrLoop : Nat → List Json → List Char → Option (Json × List Char)
  | 0, _, _ => none
  | fuel + 1, acc, cs =>
    match skipWs cs with
    | [] => none
    | c :: r =>
      if c = ']' then some (Json.arr acc, r)
      else if c = ',' then
        match parseVal fuel (skipWs r) with
        | some (v, r2) => parseArrLoop fuel (acc ++ [v]) r2
        | none => none
      else none
/-- `JSONObject` after the `{`. -/
def parseObjStart : Nat → List Char → Option (Json × List Char)
  | 0, _ => none
  | fuel + 1, cs =>
    match skipWs cs with
    | [] => none
    | c :: r =>
      if c = '}' then some (Json.obj [], r)
      else if c = '"' then
        match parseStrBody fuel r with
        | some (k, r1) => parseObjLoop fuel [] (String.mk k) r1
        | none => none
      else none
/-- The member loop of `JSONObject`: expects `: value`, then `,` and the
next key or the closing `}`; `dict(pairs)` builds the result. -/
def parseObjLoop : Nat → List (String × Json) → String → List Char →
    Option (Json × List Char)
  | 0, _, _, _ => none
  | fuel + 1, pairs, key, cs =>
    match skipWs cs with
    | [] => none
    | c :: r =>
      if c = ':' then
        match parseVal fuel (skipWs r) with
        | some (v, r2) =>
          (match skipWs r2 with
          | [] => none
          | c2 :: r3 =>
            if c2 = '}' then
              some (Json.obj (dictOfPairs (pairs ++ [(key, v)])), r3)
            else if c2 = ',' then
              match skipWs r3 with
              | [] => none
              | c3 :: r4 =>
                if c3 = '"' then
                  match parseStrBody fuel r4 with
                  | some (k2, r5) =>
                    parseObjLoop fuel (pairs ++ [(key, v)]) (String.mk k2) r5
                  | none => none
                else none
            else none)
        | none => none
      else none
end

/-- `json.loads` / `json.load` of the whole text: leading and trailing
whitespace allowed, anything else after the document is an error. -/
def parseTop (s : String) : Option Json :=
  let cs := skipWs s.toList
  match parseVal (2 * cs.length + 2) cs with
  | some (j, r) => if skipWs r = [] then some j else none
  | none => none

/-- `_load()`: the `{"sprints": {}}` default when the ledger file is
absent, otherwise the parsed file contents (`none` = fatal parse error). -/
def _load (file : Option String) : Option Json :=
  match file with
  | none => some (Json.obj [(("sprints"), Json.obj [])])
  | some s => parseTop s

/-! ## `main` and whole-process runs -/

/-- The module docstring, printed as the usage text. -/
def usageDoc : String :=
  ("Sprint ledger — track sprint status.\n\nUsage:\n")
    ++ ("    python3 docs/sprints/ledger.py stats\n")
    ++ ("    python3 docs/sprints/ledger.py start NNN\n")
    ++ ("    python3 docs/sprints/ledger.py complete NNN\n")

/-- Result of one process run: the ledger file contents afterwards (`none` =
still absent), the exit code, and the printed lines. -/
structure MainOut where
  file : Option String
  exitCode : Nat
  output : List String
deriving Repr, DecidableEq

/-- The file contents after a command: `_save` rewrites the file exactly
when the command reached its `_save(data)` call. -/
def applySave : Option Json → Option String → Option String
  | some d, _ => some (_save d)
  | none, file => file

/-- `main()` as one whole-process function: `args` is `sys.argv[1:]`,
`file` the ledger file contents (`none` = absent), `here`/`listing` the
script directory and its entries, `now1`/`now2` the successive `_now()`
results. `none` is an uncaught exception (which also leaves the file
untouched, the process dying before any `_save`). -/
def main (here : String) (listing : List String) (now1 now2 : String)
    (args : List String) (file : Option String) : Option MainOut :=
  match args with
  | [] => some ⟨file, 1, [usageDoc]⟩
  | cmd :: rest =>
    if cmd = ("stats") then
      (do
        let data ← _load file
        let out ← cmd_stats here listing data
        pure ⟨file, 0, out⟩)
    else if cmd = ("start") then
      match rest with
      | [] => some ⟨file, 1, [("Usage: ledger.py start NNN")]⟩
      | num :: _ =>
        (do
          let data ← _load file
          let r ← cmd_start now1 num data
          pure ⟨applySave r.saved file, r.exitCode, r.output⟩)
    else if cmd = ("complete") then
      match rest with
      | [] => some ⟨file, 1, [("Usage: ledger.py complete NNN")]⟩
      | num :: _ =>
        (do
          let data ← _load file
          let r ← cmd_complete now1 now2 num data
          pure ⟨applySave r.saved file, r.exitCode, r.output⟩)
    else some ⟨file, 1, [("Unknown command: ") ++ cmd, usageDoc]⟩

/-- One `start`/`complete` invocation, for reasoning about command
sequences (each carries its own argument and `_now()` results). -/
inductive Cmd where
  | start (num now : String) : Cmd
  | complete (num now1 now2 : String) : Cmd

/-- The ledger file after one invocation: unchanged on a crash or a refused
`start`, rewritten via `_save` otherwise. -/
def stepFile (file : Option String) : Cmd → Option String
  | .start num now =>
    match (do
      let d ← _load file
      cmd_start now num d : Option CmdOut) with
    | some r => applySave r.saved file
    | none => file
  | .complete num n1 n2 =>
    match (do
      let d ← _load file
      cmd_complete n1 n2 num d : Option CmdOut) with
    | some r => applySave r.saved file
    | none => file

/-- The ledger file after a command sequence, starting with no file. -/
def runLedger (cmds : List Cmd) : Option String :=
  cmds.foldl stepFile none

/-! ## Well-formedness: values representable as Python `dict`/`list` data -/

/-- No string occurs twice. -/
def nodupKeys : List String → Bool
  | [] => true
  | k :: ks => !ks.contains k && nodupKeys ks

mutual
/-- `j` corresponds to a Python value: object keys are distinct at every
level (Python dicts cannot hold duplicates). -/
def wfJson : Json → Bool
  | .arr xs => wfLA xs
  | .obj kvs => nodupKeys (kvs.map Prod.fst) && wfLO kvs
  | _ => true
def wfLA : List Json → Bool
  | [] => true
  | x :: xs => wfJson x && wfLA xs
def wfLO : List (String × Json) → Bool
  | [] => true
  | kv :: kvs => wfJson kv.2 && wfLO kvs
end

/-- The round-trip property of one value, used as the membership-based
inductive hypothesis. -/
def RTProp (j : Json) : Prop :=
  wfJson j = true → ∀ (lvl f : Nat) (rest : List Char),
    (serVal lvl j).length < f → numDelim rest = true →
    parseVal f (serVal lvl j ++ rest) = some (j, rest)

/-- The timestamp obligations of one sprint entry: a `completed` entry
carries both timestamps, an `in_progress` entry carries `started_at`. -/
def entryOk (e : List (String × Json)) : Prop :=
  (dictGet e ("status") = some (Json.str ("completed")) →
    (dictGet e ("started_at")).isSome = true ∧
    (dictGet e ("completed_at")).isSome = true) ∧
  (dictGet e ("status") = some (Json.str ("in_progress")) →
    (dictGet e ("started_at")).isSome = true)

/-- A well-formed document all of whose sprint entries meet their
timestamp obligations. -/
def GoodDoc (d : Json) : Prop :=
  wfJson d = true ∧
  ∀ (top sprints e : List (String × Json)) (k : String),
    d.asObj = some top →
    dictGet top ("sprints") = some (Json.obj sprints) →
    dictGet sprints k = some (Json.obj e) → entryOk e

/-- The ledger file is absent or holds the serialization of a good
document. -/
def GoodFile (file : Option String) : Prop :=
  file = none ∨ ∃ d, file = some (_save d) ∧ GoodDoc d

/-! ## Association-list lemmas -/

theorem dictGet_mem {kvs : List (String × Json)} {k : String} {v : Json}
    (h : dictGet kvs k = some v) : (k, v) ∈ kvs := by
  induction kvs with
  | nil => simp [dictGet] at h
  | cons kv rest ih =>
    obtain ⟨k0, v0⟩ := kv
    by_cases hk : k0 = k
    · subst hk
      simp [dictGet] at h
      simp [h]
    · simp [dictGet, hk] at h
      exact List.mem_cons_of_mem _ (ih h)

theorem dictSet_eq_of_get {kvs : List (String × Json)} {k : String} {v : Json}
    (h : dictGet kvs k = some v) : dictSet kvs k v = kvs := by
  induction kvs with
  | nil => simp [dictGet] at h
  | cons kv rest ih =>
    obtain ⟨k0, v0⟩ := kv
    by_cases hk : k0 = k
    · subst hk
      simp [dictGet] at h
      simp [dictSet, h]
    · simp [dictGet, hk] at h
      simp [dictSet, hk, ih h]

theorem dictSetdefault_eq_of_get {kvs : List (String × Json)} {k : String}
    {v : Json} (h : dictGet kvs k = some v) (dflt : Json) :
    dictSetdefault kvs k dflt = kvs := by
  simp [dictSetdefault, h]

theorem mem_dictSet {kvs : List (String × Json)} {k : String} {v : Json}
    {kv : String × Json} (h : kv ∈ dictSet kvs k v) :
    kv = (k, v) ∨ kv ∈ kvs := by
  induction kvs with
  | nil => simpa [dictSet] using h
  | cons kv0 rest ih =>
    by_cases hk : kv0.1 = k
    · simp [dictSet, hk] at h
      rcases h with h | h
      · exact Or.inl h
      · exact Or.inr (List.mem_cons_of_mem _ h)
    · simp [dictSet, hk] at h
      rcases h with h | h
      · exact Or.inr (by simp [h])
      · rcases ih h with h' | h'
        · exact Or.inl h'
        · exact Or.inr (List.mem_cons_of_mem _ h')

theorem mem_dictSetdefault {kvs : List (String × Json)} {k : String}
    {dflt : Json} {kv : String × Json} (h : kv ∈ dictSetdefault kvs k dflt) :
    kv = (k, dflt) ∨ kv ∈ kvs := by
  unfold dictSetdefault at h
  split at h
  · exact Or.inr h
  · rcases List.mem_append.mp h with h' | h'
    · exact Or.inr h'
    · exact Or.inl (by simpa using h')

/-! ## Decimal digits lemmas -/

theorem natDigitsAux_acc (f : Nat) : ∀ (n : Nat) (acc : List Char),
    natDigitsAux f n acc = natDigitsAux f n [] ++ acc := by
  induction f with
  | zero => intro n acc; simp [natDigitsAux]
  | succ f ih =>
    intro n acc
    by_cases h : n < 10
    · simp [natDigitsAux, h]
    · simp only [natDigitsAux, if_neg h]
      rw [ih (n / 10) (digitChar (n % 10) :: acc), ih (n / 10) [digitChar (n % 10)]]
      simp

theorem natDigitsAux_fuel : ∀ (n f f' : Nat), n < f → n < f' →
    natDigitsAux f n [] = natDigitsAux f' n [] := by
  intro n
  induction n using Nat.strong_induction_on with
  | _ n ih =>
    intro f f' hf hf'
    match f, f' with
    | f + 1, f' + 1 =>
      by_cases h : n < 10
      · simp [natDigitsAux, h]
      · simp only [natDigitsAux, if_neg h]
        rw [natDigitsAux_acc f, natDigitsAux_acc f']
        rw [ih (n / 10) (by omega) f f' (by omega) (by omega)]

theorem natDigits_unfold (n : Nat) :
    natDigits n = (if n < 10 then [] else natDigits (n / 10)) ++ [digitChar n] := by
  by_cases h : n < 10
  · simp [natDigits, natDigitsAux, h]
  · have e1 : natDigits n = natDigitsAux n (n / 10) [digitChar (n % 10)] := by
      simp only [natDigits, natDigitsAux]
      rw [if_neg h]
    have e2 : digitChar (n % 10) = digitChar n := by
      simp [digitChar, Nat.mod_mod_of_dvd]
    rw [e1, natDigitsAux_acc n, e2, if_neg h,
      natDigitsAux_fuel (n / 10) n (n / 10 + 1) (by omega) (by omega)]
    rfl

theorem digitChar_toNat (n : Nat) : (digitChar n).toNat = 48 + n % 10 := by
  have h : n % 10 < 10 := Nat.mod_lt _ (by omega)
  simp only [digitChar]
  interval_cases h' : n % 10 <;> decide

theorem isDigit_digitChar (n : Nat) : isDigit (digitChar n) = true := by
  have h : n % 10 < 10 := Nat.mod_lt _ (by omega)
  simp only [digitChar]
  interval_cases h' : n % 10 <;> decide

theorem natDigits_ne_nil (n : Nat) : natDigits n ≠ [] := by
  rw [natDigits_unfold]; simp

theorem natDigits_all_digit (n : Nat) : ∀ c ∈ natDigits n, isDigit c = true := by
  induction n using Nat.strong_induction_on with
  | _ n ih =>
    rw [natDigits_unfold]
    intro c hc
    rcases List.mem_append.mp hc with h | h
    · by_cases h10 : n < 10
      · simp [h10] at h
      · exact ih (n / 10) (by omega) c (by simpa [h10] using h)
    · rcases List.mem_singleton.mp h with rfl
      exact isDigit_digitChar n

theorem digitsVal_append (ds : List Char) (c : Char) :
    digitsVal (ds ++ [c]) = digitsVal ds * 10 + (c.toNat - 48) := by
  simp [digitsVal, List.foldl_append]

theorem digitsVal_natDigits (n : Nat) : digitsVal (natDigits n) = n := by
  induction n using Nat.strong_induction_on with
  | _ n ih =>
    rw [natDigits_unfold]
    by_cases h : n < 10
    · simp only [if_pos h, List.nil_append]
      simp [digitsVal, digitChar_toNat]
      omega
    · simp only [if_neg h]
      rw [digitsVal_append, ih (n / 10) (by omega), digitChar_toNat]
      omega

theorem natDigits_head_of_ne_zero (n : Nat) (hn : n ≠ 0) :
    ∃ c t, natDigits n = c :: t ∧ isDigit c = true ∧ c ≠ '0' := by
  induction n using Nat.strong_induction_on with
  | _ n ih =>
    rw [natDigits_unfold]
    by_cases h : n < 10
    · refine ⟨digitChar n, [], by simp [h], isDigit_digitChar n, ?_⟩
      have h10 : n % 10 = n := Nat.mod_eq_of_lt h
      simp only [digitChar, h10]
      interval_cases n
      · exact absurd rfl hn
      all_goals decide
    · obtain ⟨c, t, hct, hd, hz⟩ := ih (n / 10) (by omega) (by omega)
      exact ⟨c, t ++ [digitChar n], by simp [h, hct], hd, hz⟩

theorem natDigits_zero : natDigits 0 = ['0'] := by decide

theorem natDigits_length_step (n : Nat) (h : 10 ≤ n) :
    (natDigits n).length = (natDigits (n / 10)).length + 1 := by
  rw [natDigits_unfold, if_neg (by omega)]
  simp

theorem natDigits_length_pos (n : Nat) : 1 ≤ (natDigits n).length := by
  rcases natDigits_ne_nil n |> List.exists_cons_of_ne_nil with ⟨c, t, h⟩
  simp [h]

theorem natDigits_length_ge_three (n : Nat) (h : 100 ≤ n) :
    3 ≤ (natDigits n).length := by
  rw [natDigits_length_step n (by omega),
    natDigits_length_step (n / 10) (by omega)]
  have := natDigits_length_pos (n / 10 / 10)
  omega

/-! ## Claim theorems -/

/-- C2: completing a sprint whose entry is not `completed` (including an
absent entry, `entry = []`) saves a document whose entry at the normalised
key has status `completed`, `completed_at` stamped with the current
timestamp, and `started_at` backfilled with the current timestamp exactly
when it was absent (an existing value is preserved); the command prints its
message and exits 0. -/
theorem cmd_complete_sets_fields
    (now1 now2 num : String) (n : Int)
    (top sprints entry : List (String × Json))
    (hn : pyInt? num = some n)
    (hsp : dictGet top ("sprints") = some (Json.obj sprints))
    (hent : (dictGet sprints (formatKey n)).getD (Json.obj []) = Json.obj entry)
    (hnc : dictGet entry ("status") ≠ some (Json.str ("completed"))) :
    ∃ data2 sprints2 e2,
      cmd_complete now1 now2 num (Json.obj top) = some ⟨some (Json.obj data2), 0,
        [("Sprint ") ++ formatKey n ++ (" marked completed.")]⟩ ∧
      dictGet data2 ("sprints") = some (Json.obj sprints2) ∧
      dictGet sprints2 (formatKey n) = some (Json.obj e2) ∧
      dictGet e2 ("status") = some (Json.str ("completed")) ∧
      dictGet e2 ("completed_at") = some (Json.str now2) ∧
      dictGet e2 ("started_at") =
        some ((dictGet entry ("started_at")).getD (Json.str now1)) := by
  refine
    ⟨dictSet top ("sprints") (Json.obj
        (dictSet (dictSetdefault sprints (formatKey n) (Json.obj []))
          (formatKey n) (Json.obj
            (dictSet
              (dictSetdefault (dictSet entry ("status") (Json.str ("completed")))
                ("started_at") (Json.str now1))
              ("completed_at") (Json.str now2))))),
      dictSet (dictSetdefault sprints (formatKey n) (Json.obj []))
        (formatKey n) (Json.obj
          (dictSet
            (dictSetdefault (dictSet entry ("status") (Json.str ("completed")))
              ("started_at") (Json.str now1))
            ("completed_at") (Json.str now2))),
      dictSet
        (dictSetdefault (dictSet entry ("status") (Json.str ("completed")))
          ("started_at") (Json.str now1))
        ("completed_at") (Json.str now2),
      ?_, ?_, ?_, ?_, ?_, ?_⟩
  · simp [cmd_complete, hn, Json.asObj, hsp, hent]
  · exact dictGet_dictSet_self top _ _
  · exact dictGet_dictSet_self _ _ _
  · rw [dictGet_dictSet_ne _ _ _ _ (by decide),
      dictGet_dictSetdefault_ne _ _ _ _ (by decide), dictGet_dictSet_self]
  · exact dictGet_dictSet_self _ _ _
  · rw [dictGet_dictSet_ne _ _ _ _ (by decide), dictGet_dictSetdefault_self,
      dictGet_dictSet_ne _ _ _ _ (by decide)]

/-- Helper: the exact result of a successful `cmd_start`. -/
theorem cmd_start_eq
    (now num : String) (n : Int)
    (top sprints entry : List (String × Json))
    (hn : pyInt? num = some n)
    (hsp : dictGet top ("sprints") = some (Json.obj sprints))
    (hent : (dictGet sprints (formatKey n)).getD (Json.obj []) = Json.obj entry)
    (hnc : dictGet entry ("status") ≠ some (Json.str ("completed"))) :
    cmd_start now num (Json.obj top) = some ⟨some (Json.obj
      (dictSet top ("sprints") (Json.obj
        (dictSet (dictSetdefault sprints (formatKey n) (Json.obj []))
          (formatKey n) (Json.obj
            (dictSetdefault (dictSet entry ("status") (Json.str ("in_progress")))
              ("started_at") (Json.str now))))))), 0,
      [("Sprint ") ++ formatKey n ++ (" marked in_progress.")]⟩ := by
  simp [cmd_start, hn, Json.asObj, hsp, hent, hnc]

/-- C3: starting a sprint whose entry is not `completed` saves a document
whose entry at the normalised key has status `in_progress` and `started_at`
stamped with the current timestamp exactly when it was absent; running
`start` again on the saved state saves the identical document (so in
particular the entry — status and `started_at` included — is unchanged):
`start` is idempotent on non-completed entries. -/
theorem cmd_start_idempotent
    (now now2 num : String) (n : Int)
    (top sprints entry : List (String × Json))
    (hn : pyInt? num = some n)
    (hsp : dictGet top ("sprints") = some (Json.obj sprints))
    (hent : (dictGet sprints (formatKey n)).getD (Json.obj []) = Json.obj entry)
    (hnc : dictGet entry ("status") ≠ some (Json.str ("completed"))) :
    ∃ data2 sprints2 e2,
      cmd_start now num (Json.obj top) = some ⟨some (Json.obj data2), 0,
        [("Sprint ") ++ formatKey n ++ (" marked in_progress.")]⟩ ∧
      dictGet data2 ("sprints") = some (Json.obj sprints2) ∧
      dictGet sprints2 (formatKey n) = some (Json.obj e2) ∧
      dictGet e2 ("status") = some (Json.str ("in_progress")) ∧
      dictGet e2 ("started_at") =
        some ((dictGet entry ("started_at")).getD (Json.str now)) ∧
      cmd_start now2 num (Json.obj data2) = some ⟨some (Json.obj data2), 0,
        [("Sprint ") ++ formatKey n ++ (" marked in_progress.")]⟩ := by
  have hst : dictGet
      (dictSetdefault (dictSet entry ("status") (Json.str ("in_progress")))
        ("started_at") (Json.str now)) ("status") =
      some (Json.str ("in_progress")) := by
    rw [dictGet_dictSetdefault_ne _ _ _ _ (by decide), dictGet_dictSet_self]
  have hsa : dictGet
      (dictSetdefault (dictSet entry ("status") (Json.str ("in_progress")))
        ("started_at") (Json.str now)) ("started_at") =
      some ((dictGet entry ("started_at")).getD (Json.str now)) := by
    rw [dictGet_dictSetdefault_self, dictGet_dictSet_ne _ _ _ _ (by decide)]
  refine ⟨_, _, _, cmd_start_eq now num n top sprints entry hn hsp hent hnc,
    dictGet_dictSet_self _ _ _, dictGet_dictSet_self _ _ _, hst, hsa, ?_⟩
  have h2 := cmd_start_eq now2 num n
    (dictSet top ("sprints") (Json.obj
      (dictSet (dictSetdefault sprints (formatKey n) (Json.obj []))
        (formatKey n) (Json.obj
          (dictSetdefault (dictSet entry ("status") (Json.str ("in_progress")))
            ("started_at") (Json.str now))))))
    (dictSet (dictSetdefault sprints (formatKey n) (Json.obj []))
      (formatKey n) (Json.obj
        (dictSetdefault (dictSet entry ("status") (Json.str ("in_progress")))
          ("started_at") (Json.str now))))
    (dictSetdefault (dictSet entry ("status") (Json.str ("in_progress")))
      ("started_at") (Json.str now))
    hn (dictGet_dictSet_self _ _ _) (by rw [dictGet_dictSet_self]; rfl)
    (by rw [hst]; decide)
  rw [h2]
  rw [dictSet_eq_of_get hst,
    dictSetdefault_eq_of_get (v := (dictGet entry ("started_at")).getD (Json.str now)) hsa,
    dictSetdefault_eq_of_get (dictGet_dictSet_self _ _ _),
    dictSet_eq_of_get (dictGet_dictSet_self _ _ _),
    dictSet_eq_of_get (dictGet_dictSet_self _ _ _)]

/-- Helper: the exact result of `cmd_complete` (which never refuses). -/
theorem cmd_complete_eq
    (now1 now2 num : String) (n : Int)
    (top sprints entry : List (String × Json))
    (hn : pyInt? num = some n)
    (hsp : dictGet top ("sprints") = some (Json.obj sprints))
    (hent : (dictGet sprints (formatKey n)).getD (Json.obj []) = Json.obj entry) :
    cmd_complete now1 now2 num (Json.obj top) = some ⟨some (Json.obj
      (dictSet top ("sprints") (Json.obj
        (dictSet (dictSetdefault sprints (formatKey n) (Json.obj []))
          (formatKey n) (Json.obj
            (dictSet
              (dictSetdefault (dictSet entry ("status") (Json.str ("completed")))
                ("started_at") (Json.str now1))
              ("completed_at") (Json.str now2))))))), 0,
      [("Sprint ") ++ formatKey n ++ (" marked completed.")]⟩ := by
  simp [cmd_complete, hn, Json.asObj, hsp, hent]

/-- C9: a successful `start` or `complete` changes at most the entry at the
normalised key — every other sprint entry, and every other top-level field
of the saved document, is exactly the field of the input document. `start`
succeeds exactly when the entry is not completed (the guard), while
`complete` succeeds — and keeps the frame — on every entry, an
already-completed one included. -/
theorem frame_effect
    (now now1 now2 num : String) (n : Int)
    (top sprints entry : List (String × Json))
    (hn : pyInt? num = some n)
    (hsp : dictGet top ("sprints") = some (Json.obj sprints))
    (hent : (dictGet sprints (formatKey n)).getD (Json.obj []) = Json.obj entry) :
    (dictGet entry ("status") ≠ some (Json.str ("completed")) →
      ∃ data2 sprints2 r,
        cmd_start now num (Json.obj top) = some r ∧
        r.saved = some (Json.obj data2) ∧
        dictGet data2 ("sprints") = some (Json.obj sprints2) ∧
        (∀ k, k ≠ formatKey n → dictGet sprints2 k = dictGet sprints k) ∧
        (∀ k, k ≠ ("sprints") → dictGet data2 k = dictGet top k)) ∧
    (∃ data2 sprints2 r,
      cmd_complete now1 now2 num (Json.obj top) = some r ∧
      r.saved = some (Json.obj data2) ∧
      dictGet data2 ("sprints") = some (Json.obj sprints2) ∧
      (∀ k, k ≠ formatKey n → dictGet sprints2 k = dictGet sprints k) ∧
      (∀ k, k ≠ ("sprints") → dictGet data2 k = dictGet top k)) := by
  constructor
  · intro hnc
    refine ⟨_, _, _, cmd_start_eq now num n top sprints entry hn hsp hent hnc,
      rfl, dictGet_dictSet_self _ _ _, ?_, ?_⟩
    · intro k hk
      rw [dictGet_dictSet_ne _ _ _ _ hk, dictGet_dictSetdefault_ne _ _ _ _ hk]
    · intro k hk
      rw [dictGet_dictSet_ne _ _ _ _ hk]
  · refine ⟨_, _, _, cmd_complete_eq now1 now2 num n top sprints entry hn hsp hent,
      rfl, dictGet_dictSet_self _ _ _, ?_, ?_⟩
    · intro k hk
      rw [dictGet_dictSet_ne _ _ _ _ hk, dictGet_dictSetdefault_ne _ _ _ _ hk]
    · intro k hk
      rw [dictGet_dictSet_ne _ _ _ _ hk]

/-- C1: when the ledger's entry for the requested sprint has status
`completed`, `start NNN` exits with code 1, prints the refusal message, and
the ledger file's contents are exactly what they were (no save occurs). -/
theorem start_completed_rejected
    (here : String) (listing : List String) (now1 now2 num : String)
    (file : Option String) (n : Int)
    (top sprints entry : List (String × Json))
    (hn : pyInt? num = some n)
    (hload : _load file = some (Json.obj top))
    (hsp : dictGet top ("sprints") = some (Json.obj sprints))
    (hent : (dictGet sprints (formatKey n)).getD (Json.obj []) = Json.obj entry)
    (hc : dictGet entry ("status") = some (Json.str ("completed"))) :
    main here listing now1 now2 [("start"), num] file =
      some ⟨file, 1, [("Sprint ") ++ formatKey n ++
        (" is already completed — cannot reopen.")]⟩ := by
  simp [main, hload, cmd_start, hn, Json.asObj, hsp, hent, hc, applySave]

/-- C8: `start` and `complete` without their argument exit 1 with a usage
line, a missing command prints the docstring and exits 1, and an unknown
command prints an error plus the docstring and exits 1 — in every case the
ledger file is left exactly as it was. -/
theorem main_bad_invocations
    (here : String) (listing : List String) (now1 now2 : String)
    (file : Option String) :
    main here listing now1 now2 [("start")] file =
      some ⟨file, 1, [("Usage: ledger.py start NNN")]⟩ ∧
    main here listing now1 now2 [("complete")] file =
      some ⟨file, 1, [("Usage: ledger.py complete NNN")]⟩ ∧
    main here listing now1 now2 [] file = some ⟨file, 1, [usageDoc]⟩ ∧
    (∀ (cmd : String) (rest : List String),
      cmd ≠ ("stats") → cmd ≠ ("start") → cmd ≠ ("complete") →
      main here listing now1 now2 (cmd :: rest) file =
        some ⟨file, 1, [("Unknown command: ") ++ cmd, usageDoc]⟩) := by
  refine ⟨by simp [main], by simp [main], by simp [main], ?_⟩
  intro cmd rest h1 h2 h3
  simp [main, h1, h2, h3]

/-- Helper: a number of four or more digits formats as its plain decimal
representation (the `03` pad is already exceeded). -/
theorem formatKey_large (n : Int) (hn : 1000 ≤ n) : formatKey n = pyStr n := by
  have h0 : ¬ n < 0 := by omega
  have hlen : 3 ≤ (natDigits n.natAbs).length := by
    apply natDigits_length_ge_three
    omega
  have habs : n.natAbs = n.toNat := by omega
  rw [habs] at hlen
  simp only [formatKey, pyStr, if_neg h0, List.length_nil, List.nil_append, habs]
  rw [if_pos (by simpa using hlen)]

/-- C10: `start` and `complete` see their argument only through `int(...)`
(so `"1"`, `"01"` and `"001"` behave identically), the parsed integer is
zero-padded to at least three digits (`1 ↦ "001"`), and integers of 1000 or
more keep their full decimal representation as the key. -/
theorem key_normalisation :
    (∀ (now s1 s2 : String) (data : Json), pyInt? s1 = pyInt? s2 →
      cmd_start now s1 data = cmd_start now s2 data) ∧
    (∀ (now1 now2 s1 s2 : String) (data : Json), pyInt? s1 = pyInt? s2 →
      cmd_complete now1 now2 s1 data = cmd_complete now1 now2 s2 data) ∧
    pyInt? ("1") = some 1 ∧ pyInt? ("01") = some 1 ∧ pyInt? ("001") = some 1 ∧
    formatKey 1 = ("001") ∧
    (∀ n : Int, 1000 ≤ n → formatKey n = pyStr n) := by
  refine ⟨?_, ?_, by decide, by decide, by decide, by decide, formatKey_large⟩
  · intro now s1 s2 data h
    simp only [cmd_start, h]
  · intro now1 now2 s1 s2 data h
    simp only [cmd_complete, h]

/-- Witness for `key_normalisation`: `start 01` and `start 001` coincide on
a concrete ledger, and `1234` keeps its full decimal key. -/
theorem key_normalisation_witness :
    cmd_start ("T") ("01") (Json.obj [(("sprints"), Json.obj [])]) =
      cmd_start ("T") ("001") (Json.obj [(("sprints"), Json.obj [])]) ∧
    formatKey 1234 = pyStr 1234 :=
  ⟨key_normalisation.1 ("T") ("01") ("001") _ (by decide),
   key_normalisation.2.2.2.2.2.2 1234 (by decide)⟩

/-- Helper: an `Option`-valued `mapM` succeeds exactly on the pointwise
graph of its function. -/
theorem mapM_option_forall2 {α β : Type} (f : α → Option β) :
    ∀ (xs : List α) (ys : List β), xs.mapM f = some ys ↔
      List.Forall₂ (fun x y => f x = some y) xs ys := by
  intro xs
  induction xs with
  | nil =>
    intro ys
    simp only [List.mapM_nil, pure, Option.some.injEq, List.forall₂_nil_left_iff]
    exact ⟨fun h => h.symm, fun h => h.symm⟩
  | cons x xs ih =>
    intro ys
    rw [List.mapM_cons]
    simp only [Option.bind_eq_bind, pure]
    constructor
    · intro h
      obtain ⟨y, hfx, h2⟩ := Option.bind_eq_some.mp h
      obtain ⟨ys2, hms, h3⟩ := Option.bind_eq_some.mp h2
      obtain rfl : y :: ys2 = ys := by simpa using h3
      exact List.Forall₂.cons hfx ((ih ys2).mp hms)
    · intro h
      cases h with
      | cons hfy htail =>
        rw [Option.bind_eq_some]
        exact ⟨_, hfy, Option.bind_eq_some.mpr ⟨_, (ih _).mpr htail, rfl⟩⟩

/-- C4 counterexample: two distinct filenames whose embedded text parses to
the same integer each contribute an element — discovery returns `[1, 1]`,
which is not a list of unique IDs, and `stats` prints the corresponding row
twice. -/
theorem discover_not_unique :
    _discover_sprints [("SPRINT-1.md"), ("SPRINT-01.md")] = [1, 1] ∧
    ¬ (_discover_sprints [("SPRINT-1.md"), ("SPRINT-01.md")]).Nodup ∧
    cmd_stats ("H") [("SPRINT-1.md"), ("SPRINT-01.md")]
        (Json.obj [(("sprints"), Json.obj [])]) =
      some [statsHeader, statsRule,
        ("SPRINT-001  pending       -                       -                     "),
        ("SPRINT-001  pending       -                       -                     ")] := by
  refine ⟨by decide, by decide, by decide⟩

/-- C4 (amended): discovery returns the parsed integer IDs in ascending
order with multiplicity (a permutation of the multiset of parsed IDs —
unique only when distinct filenames embed distinct integers), and a
non-crashing `stats` prints, after the two header lines, exactly one row
per element of the discovery list, in that (ascending) order. -/
theorem stats_rows_amended
    (here : String) (listing : List String) (data : Json) (rows : List String)
    (hne : _discover_sprints listing ≠ [])
    (hst : cmd_stats here listing data = some rows) :
    List.Sorted (· ≤ ·) (_discover_sprints listing) ∧
    List.Perm (_discover_sprints listing) (listing.filterMap parseSprintName) ∧
    ∃ top sprints rows2,
      data.asObj = some top ∧
      ((dictGet top ("sprints")).getD (Json.obj [])).asObj = some sprints ∧
      rows = statsHeader :: statsRule :: rows2 ∧
      List.Forall₂ (fun n row => statsRow sprints n = some row)
        (_discover_sprints listing) rows2 := by
  refine ⟨List.sorted_insertionSort _ _, List.perm_insertionSort _ _, ?_⟩
  unfold cmd_stats at hst
  simp only [Option.bind_eq_bind, pure] at hst
  cases htop : data.asObj with
  | none => rw [htop] at hst; exact absurd hst (by simp)
  | some top =>
    rw [htop, Option.some_bind, if_neg hne] at hst
    cases hsp : ((dictGet top ("sprints")).getD (Json.obj [])).asObj with
    | none => rw [hsp] at hst; exact absurd hst (by simp)
    | some sprints =>
      rw [hsp, Option.some_bind] at hst
      cases hmm : (_discover_sprints listing).mapM (statsRow sprints) with
      | none => rw [hmm] at hst; exact absurd hst (by simp)
      | some rows2 =>
        rw [hmm, Option.some_bind] at hst
        simp only [Option.some.injEq] at hst
        exact ⟨top, sprints, rows2, rfl, hsp, hst.symm,
          (mapM_option_forall2 _ _ _).mp hmm⟩

/-! ## Round trip, part 1: strings -/

theorem mk_toList (s : String) : String.mk s.toList = s := by
  cases s
  rfl

theorem toNat_valid (c : Char) :
    c.toNat < 55296 ∨ 57343 < c.toNat ∧ c.toNat < 1114112 :=
  c.valid

theorem mkChar?_toNat (c : Char) : mkChar? c.toNat = some c := by
  have h : c.toNat.isValidChar := c.valid
  unfold mkChar?
  rw [if_pos h, Char.ofNat_toNat]

theorem hexVal?_hexDig (n : Nat) : hexVal? (hexDig n) = some (n % 16) := by
  have hk : n % 16 < 16 := Nat.mod_lt _ (by omega)
  unfold hexDig
  generalize hgen : n % 16 = k at hk ⊢
  interval_cases k <;> decide

theorem hex4Val_hex4 (n : Nat) (h : n < 65536) :
    hex4Val (hexDig (n / 4096)) (hexDig (n / 256)) (hexDig (n / 16)) (hexDig n) =
      some n := by
  simp [hex4Val, hexVal?_hexDig]
  omega

/-- `decodeEscape` after a `u` is `decodeU`. -/
theorem decodeEscape_eq_decodeU (xs : List Char) :
    decodeEscape ('u' :: xs) = decodeU xs := by
  simp [decodeEscape]

/-- `decodeU` on four hex digits of a non-surrogate code point. -/
theorem decodeU_bmp {hi : Nat} {ch : Char} (a b c2 d : Char) (rest3 : List Char)
    (hhex : hex4Val a b c2 d = some hi)
    (hns : ¬ (55296 ≤ hi ∧ hi ≤ 57343)) (hch : mkChar? hi = some ch) :
    decodeU (a :: b :: c2 :: d :: rest3) = some (ch, rest3) := by
  simp [decodeU, hhex, hns, hch]

/-- `decodeU` on four hex digits of a surrogate hands over to `decodePair`. -/
theorem decodeU_sur {hi : Nat} (a b c2 d : Char) (rest3 : List Char)
    (hhex : hex4Val a b c2 d = some hi) (hs : 55296 ≤ hi ∧ hi ≤ 57343) :
    decodeU (a :: b :: c2 :: d :: rest3) = decodePair hi rest3 := by
  simp [decodeU, hhex, hs]

/-- `decodePair` on a well-formed low-surrogate escape. -/
theorem decodePair_known {hi lo : Nat} {ch : Char} (e1 e2 e3 e4 : Char)
    (rest4 : List Char) (hhex : hex4Val e1 e2 e3 e4 = some lo)
    (hcond : hi ≤ 56319 ∧ 56320 ≤ lo ∧ lo ≤ 57343)
    (hch : mkChar? (65536 + (hi - 55296) * 1024 + (lo - 56320)) = some ch) :
    decodePair hi ('\\' :: 'u' :: e1 :: e2 :: e3 :: e4 :: rest4) =
      some (ch, rest4) := by
  simp [decodePair, hhex, hcond, hch]

/-- `hex4` spelled out as four cons cells onto a tail. -/
theorem hex4_append (n : Nat) (t : List Char) :
    hex4 n ++ t = hexDig (n / 4096) :: hexDig (n / 256) :: hexDig (n / 16) ::
      hexDig n :: t := by
  simp [hex4]

/-- Decoding inverts the `\uXXXX` escape of a BMP character. -/
theorem decodeEscape_u (c : Char) (rest : List Char)
    (h9 : c.toNat ≤ 65535) :
    decodeEscape ('u' :: (hex4 c.toNat ++ rest)) = some (c, rest) := by
  have hval := toNat_valid c
  have hns : ¬ (55296 ≤ c.toNat ∧ c.toNat ≤ 57343) := by omega
  rw [decodeEscape_eq_decodeU, hex4_append]
  exact decodeU_bmp _ _ _ _ _ (hex4Val_hex4 c.toNat (by omega)) hns
    (mkChar?_toNat c)

/-- Decoding inverts the surrogate-pair escape of an astral character. -/
theorem decodeEscape_pair (c : Char) (rest : List Char)
    (h9 : ¬ c.toNat ≤ 65535) :
    decodeEscape ('u' :: (hex4 (55296 + (c.toNat - 65536) / 1024) ++
      ('\\' :: 'u' :: (hex4 (56320 + (c.toNat - 65536) % 1024) ++ rest)))) =
      some (c, rest) := by
  have hval := toNat_valid c
  have ht2 : c.toNat < 1114112 := by omega
  have hch : mkChar? (65536 + (55296 + (c.toNat - 65536) / 1024 - 55296) * 1024 +
      (56320 + (c.toNat - 65536) % 1024 - 56320)) = some c := by
    rw [show 65536 + (55296 + (c.toNat - 65536) / 1024 - 55296) * 1024 +
      (56320 + (c.toNat - 65536) % 1024 - 56320) = c.toNat by omega]
    exact mkChar?_toNat c
  have hhex1 := hex4Val_hex4 (55296 + (c.toNat - 65536) / 1024) (by omega)
  have hhex2 := hex4Val_hex4 (56320 + (c.toNat - 65536) % 1024) (by omega)
  have hs1 : 55296 ≤ 55296 + (c.toNat - 65536) / 1024 ∧
      55296 + (c.toNat - 65536) / 1024 ≤ 57343 := by omega
  have hs2 : 55296 + (c.toNat - 65536) / 1024 ≤ 56319 ∧
      56320 ≤ 56320 + (c.toNat - 65536) % 1024 ∧
      56320 + (c.toNat - 65536) % 1024 ≤ 57343 := by omega
  rw [decodeEscape_eq_decodeU, hex4_append,
    decodeU_sur _ _ _ _ _ hhex1 hs1, hex4_append,
    decodePair_known _ _ _ _ _ hhex2 hs2 hch]

/-- One scan step on a backslash: hand over to `decodeEscape`. -/
theorem parseStrBody_esc_step (f : Nat) (t : List Char) :
    parseStrBody (f + 1) ('\\' :: t) =
      match decodeEscape t with
      | some (ch, rest2) => consRes ch (parseStrBody f rest2)
      | none => none := by
  simp [parseStrBody]

/-- One scan step on a plain (unescaped, printable) character. -/
theorem parseStrBody_lit_step (f : Nat) (c : Char) (t : List Char)
    (h1 : ¬ c = '"') (h2 : ¬ c = '\\') (hlt : ¬ c.toNat < 32) :
    parseStrBody (f + 1) (c :: t) = consRes c (parseStrBody f t) := by
  simp only [parseStrBody, if_neg h1, if_neg h2, if_neg hlt]

/-- Parsing one escaped character undoes the escaping and continues. -/
theorem parseStrBody_escChar (c : Char) (f : Nat) (rest : List Char) :
    parseStrBody (f + 1) (escChar c ++ rest) = consRes c (parseStrBody f rest) := by
  by_cases h1 : c = '"'
  · subst h1; rfl
  by_cases h2 : c = '\\'
  · subst h2; rfl
  by_cases h3 : c = '\x08'
  · subst h3; rfl
  by_cases h4 : c = '\x0c'
  · subst h4; rfl
  by_cases h5 : c = '\n'
  · subst h5; rfl
  by_cases h6 : c = '\r'
  · subst h6; rfl
  by_cases h7 : c = '\t'
  · subst h7; rfl
  by_cases h8 : 32 ≤ c.toNat ∧ c.toNat ≤ 126
  · have hlt : ¬ c.toNat < 32 := by omega
    simp only [escChar, if_neg h1, if_neg h2, if_neg h3, if_neg h4, if_neg h5,
      if_neg h6, if_neg h7, if_pos h8, List.cons_append, List.nil_append]
    exact parseStrBody_lit_step f c rest h1 h2 hlt
  by_cases h9 : c.toNat ≤ 65535
  · simp only [escChar, if_neg h1, if_neg h2, if_neg h3, if_neg h4, if_neg h5,
      if_neg h6, if_neg h7, if_neg h8, if_pos h9, List.cons_append]
    rw [parseStrBody_esc_step, decodeEscape_u c rest h9]
  · simp only [escChar, if_neg h1, if_neg h2, if_neg h3, if_neg h4, if_neg h5,
      if_neg h6, if_neg h7, if_neg h8, if_neg h9, List.cons_append,
      List.append_assoc]
    rw [parseStrBody_esc_step, decodeEscape_pair c rest h9]

/-- Parsing an escaped character run recovers it, stopping at the closing
quote. -/
theorem parseStrBody_flatMap (cs : List Char) : ∀ (f : Nat) (rest : List Char),
    cs.length < f →
    parseStrBody f (cs.flatMap escChar ++ '"' :: rest) = some (cs, rest) := by
  induction cs with
  | nil =>
    intro f rest hf
    match f, hf with
    | f + 1, _ => simp [parseStrBody]
  | cons c cs ih =>
    intro f rest hf
    match f, hf with
    | f + 1, hf2 =>
      rw [List.flatMap_cons, List.append_assoc, parseStrBody_escChar,
        ih f rest (by simp only [List.length_cons] at hf2; omega)]
      rfl

/-! ## Round trip, part 2: numbers -/

theorem numDelim_facts (c : Char) (t : List Char) :
    numDelim (c :: t) = true →
    c ≠ '.' ∧ c ≠ 'e' ∧ c ≠ 'E' ∧ isDigit c = false := by
  intro h
  simp only [numDelim, Bool.not_eq_true', Bool.or_eq_false_iff,
    decide_eq_false_iff_not] at h
  exact ⟨h.1.1.2, h.1.2, h.2, h.1.1.1⟩

theorem takeDigits_stop : ∀ {cs : List Char}, numDelim cs = true →
    takeDigits cs = ([], cs) := by
  intro cs h
  cases cs with
  | nil => rfl
  | cons c t =>
    have hd := (numDelim_facts c t h).2.2.2
    simp [takeDigits, hd]

theorem takeDigits_of_digits : ∀ (ds rest : List Char),
    takeDigits rest = ([], rest) → (∀ c ∈ ds, isDigit c = true) →
    takeDigits (ds ++ rest) = (ds, rest) := by
  intro ds
  induction ds with
  | nil =>
    intro rest h0 _
    simpa using h0
  | cons c t ih =>
    intro rest h0 hall
    have hc : isDigit c = true := hall c (List.mem_cons_self c t)
    have ht := ih rest h0 (fun x hx => hall x (List.mem_cons_of_mem c hx))
    rw [List.cons_append]
    simp [takeDigits, hc, ht]

theorem digit_facts {c : Char} (h : isDigit c = true) :
    c ≠ '-' ∧ c ≠ '.' ∧ c ≠ 'e' ∧ c ≠ 'E' ∧ c ≠ '"' ∧ c ≠ '{' ∧ c ≠ '[' ∧
      c ≠ 'n' ∧ c ≠ 't' ∧ c ≠ 'f' ∧ c ≠ ']' ∧ c ≠ '}' ∧ c ≠ ',' ∧
      isJsonWs c = false := by
  simp only [isDigit, decide_eq_true_eq] at h
  have hws : c ≠ ' ' ∧ c ≠ '\t' ∧ c ≠ '\n' ∧ c ≠ '\r' := by
    refine ⟨?_, ?_, ?_, ?_⟩ <;> (intro hh; subst hh; revert h; decide)
  refine ⟨?_, ?_, ?_, ?_, ?_, ?_, ?_, ?_, ?_, ?_, ?_, ?_, ?_,
    by simp [isJsonWs, hws.1, hws.2.1, hws.2.2.1, hws.2.2.2]⟩
  all_goals intro hh; subst hh; revert h; decide

/-- `intTail` accepts a delimiter-headed remainder. -/
theorem intTail_delim (v : Int) (r : List Char) (hr : numDelim r = true) :
    intTail v r = some (v, r) := by
  match r with
  | [] => rfl
  | c :: t =>
    obtain ⟨hdot, he, hE, _⟩ := numDelim_facts _ _ hr
    simp [intTail, hdot, he, hE]

/-- `parseIntCore` inverts the digit run of a nonzero natural. -/
theorem parseIntCore_digits (m : Nat) (hm : m ≠ 0) (rest : List Char)
    (hr : numDelim rest = true) (neg : Bool) :
    parseIntCore neg (natDigits m ++ rest) =
      some (if neg then -(m : Int) else (m : Int), rest) := by
  obtain ⟨c, t, hct, hcd, hc0⟩ := natDigits_head_of_ne_zero m hm
  have hall := natDigits_all_digit m
  rw [hct] at hall
  have htd : takeDigits (t ++ rest) = (t, rest) :=
    takeDigits_of_digits t rest (takeDigits_stop hr)
      (fun x hx => hall x (by simp [hx]))
  have hval : digitsVal (c :: t) = m := by
    have := digitsVal_natDigits m
    rwa [hct] at this
  rw [hct, List.cons_append]
  simp only [parseIntCore, hc0, hcd, if_true, htd, hval]
  exact intTail_delim _ rest hr

/-- `parseIntTok` inverts `intChars` whenever the remainder cannot extend
the number. -/
theorem parseIntTok_intChars (n : Int) (rest : List Char)
    (hr : numDelim rest = true) :
    parseIntTok (intChars n ++ rest) = some (n, rest) := by
  rcases lt_trichotomy n 0 with hneg | hzero | hpos
  · have he : intChars n = '-' :: natDigits n.natAbs := by
      simp [intChars, hneg]
    have hm : n.natAbs ≠ 0 := by omega
    rw [he, List.cons_append,
      show parseIntTok ('-' :: (natDigits n.natAbs ++ rest)) =
        parseIntCore true (natDigits n.natAbs ++ rest) from rfl,
      parseIntCore_digits n.natAbs hm rest hr true]
    have hthis : -(n.natAbs : Int) = n := by omega
    show some (-(n.natAbs : Int), rest) = some (n, rest)
    rw [hthis]
  · subst hzero
    rw [show intChars 0 ++ rest = '0' :: rest from rfl]
    have hstep : parseIntTok ('0' :: rest) = parseIntCore false ('0' :: rest) := by
      simp [parseIntTok]
    rw [hstep, show parseIntCore false ('0' :: rest) =
      intTail (if false then -0 else 0) rest from rfl, intTail_delim _ rest hr]
    rfl
  · have h0 : ¬ n < 0 := by omega
    have he : intChars n = natDigits n.toNat := by simp [intChars, h0]
    have hm : n.toNat ≠ 0 := by omega
    obtain ⟨c, t, hct, hcd, hc0⟩ := natDigits_head_of_ne_zero n.toNat hm
    obtain ⟨hminus, _⟩ := digit_facts hcd
    have hstep : parseIntTok (natDigits n.toNat ++ rest) =
        parseIntCore false (natDigits n.toNat ++ rest) := by
      rw [hct, List.cons_append]
      simp [parseIntTok, hminus]
    rw [he, hstep, parseIntCore_digits n.toNat hm rest hr false]
    have hthis : (n.toNat : Int) = n := by omega
    simp [hthis]

/-! ## Round trip, part 3: whitespace, heads, lengths, `dict(pairs)` -/

theorem skipWs_cons_false {c : Char} {t : List Char} (h : isJsonWs c = false) :
    skipWs (c :: t) = c :: t := by
  simp [skipWs, h]

theorem skipWs_replicate_space : ∀ (n : Nat) (cs : List Char),
    skipWs (List.replicate n ' ' ++ cs) = skipWs cs := by
  intro n
  induction n with
  | zero => intro cs; rfl
  | succ n ih =>
    intro cs
    simp only [List.replicate_succ, List.cons_append]
    rw [show skipWs (' ' :: (List.replicate n ' ' ++ cs)) =
      skipWs (List.replicate n ' ' ++ cs) from rfl, ih]

theorem skipWs_nlInd (lvl : Nat) (cs : List Char) :
    skipWs (nlInd lvl ++ cs) = skipWs cs := by
  simp only [nlInd, List.cons_append]
  rw [show skipWs ('\n' :: (List.replicate (2 * lvl) ' ' ++ cs)) =
    skipWs (List.replicate (2 * lvl) ' ' ++ cs) from rfl,
    skipWs_replicate_space]

/-- Every serialized value begins with a character that is not whitespace
and closes nothing. -/
theorem serVal_head (lvl : Nat) (j : Json) :
    ∃ c t, serVal lvl j = c :: t ∧ isJsonWs c = false ∧ c ≠ ']' ∧ c ≠ '}' ∧
      c ≠ ',' := by
  cases j with
  | null => exact ⟨'n', _, rfl, by decide, by decide, by decide, by decide⟩
  | bool b =>
    cases b with
    | true => exact ⟨'t', _, rfl, by decide, by decide, by decide, by decide⟩
    | false => exact ⟨'f', _, rfl, by decide, by decide, by decide, by decide⟩
  | str s => exact ⟨'"', _, rfl, by decide, by decide, by decide, by decide⟩
  | arr xs =>
    cases xs with
    | nil => exact ⟨'[', _, rfl, by decide, by decide, by decide, by decide⟩
    | cons x xs => exact ⟨'[', _, rfl, by decide, by decide, by decide, by decide⟩
  | obj kvs =>
    cases kvs with
    | nil => exact ⟨'{', _, rfl, by decide, by decide, by decide, by decide⟩
    | cons kv kvs =>
      exact ⟨'{', _, rfl, by decide, by decide, by decide, by decide⟩
  | num n =>
    by_cases hn : n < 0
    · refine ⟨'-', natDigits n.natAbs, ?_, by decide, by decide, by decide,
        by decide⟩
      simp [serVal, intChars, hn]
    · have hne := natDigits_ne_nil n.toNat
      obtain ⟨c, t, hct⟩ := List.exists_cons_of_ne_nil hne
      have hcd : isDigit c = true := by
        have := natDigits_all_digit n.toNat
        rw [hct] at this
        exact this c (by simp)
      obtain ⟨_, _, _, _, _, _, _, _, _, _, hbr, hbc, hcm, hws⟩ :=
        digit_facts hcd
      refine ⟨c, t, ?_, hws, hbr, hbc, hcm⟩
      simp [serVal, intChars, hn, hct]

/-- `skipWs` is the identity in front of a serialized value. -/
theorem skipWs_serVal (lvl : Nat) (j : Json) (x : List Char) :
    skipWs (serVal lvl j ++ x) = serVal lvl j ++ x := by
  obtain ⟨c, t, hct, hws, _⟩ := serVal_head lvl j
  rw [hct, List.cons_append, skipWs_cons_false hws]

theorem nlInd_length (lvl : Nat) : (nlInd lvl).length = 2 * lvl + 1 := by
  simp [nlInd]

theorem escChar_length_pos (c : Char) : 1 ≤ (escChar c).length := by
  unfold escChar
  split_ifs <;> simp [hex4]

theorem flatMap_escChar_length (cs : List Char) :
    cs.length ≤ (cs.flatMap escChar).length := by
  induction cs with
  | nil => simp
  | cons c t ih =>
    rw [List.flatMap_cons]
    have := escChar_length_pos c
    simp only [List.length_append, List.length_cons]
    omega

theorem serVal_length_pos (lvl : Nat) (j : Json) : 1 ≤ (serVal lvl j).length := by
  obtain ⟨c, t, hct, _⟩ := serVal_head lvl j
  simp [hct]

theorem numDelim_comma (t : List Char) : numDelim (',' :: t) = true := rfl

theorem numDelim_newline (t : List Char) : numDelim ('\n' :: t) = true := rfl

theorem numDelim_itemsA (l lvl : Nat) (xs : List Json) (x : List Char) :
    numDelim (serItemsA l xs ++ (nlInd lvl ++ x)) = true := by
  cases xs with
  | nil => rfl
  | cons y ys => rfl

theorem numDelim_itemsO (l lvl : Nat) (kvs : List (String × Json)) (x : List Char) :
    numDelim (serItemsO l kvs ++ (nlInd lvl ++ x)) = true := by
  cases kvs with
  | nil => rfl
  | cons kv kvs => rfl

theorem dictSet_absent {d : List (String × Json)} {k : String} (v : Json)
    (h : dictGet d k = none) : dictSet d k v = d ++ [(k, v)] := by
  induction d with
  | nil => rfl
  | cons kv rest ih =>
    by_cases hk : kv.1 = k
    · simp [dictGet, hk] at h
    · simp [dictGet, hk] at h
      simp [dictSet, hk, ih h]

theorem contains_false_not_mem {k : String} {ks : List String}
    (h : ks.contains k = false) : k ∉ ks := by
  simpa using h

theorem dictGet_none_of_not_mem {d : List (String × Json)} {k : String}
    (h : k ∉ d.map Prod.fst) : dictGet d k = none := by
  induction d with
  | nil => rfl
  | cons kv rest ih =>
    simp only [List.map_cons, List.mem_cons] at h
    push_neg at h
    have hne : ¬ kv.1 = k := fun hh => h.1 hh.symm
    simp [dictGet, hne, ih h.2]

theorem foldl_dictSet_fresh : ∀ (kvs acc : List (String × Json)),
    nodupKeys (kvs.map Prod.fst) = true →
    (∀ kv ∈ kvs, dictGet acc kv.1 = none) →
    kvs.foldl (fun d kv => dictSet d kv.1 kv.2) acc = acc ++ kvs := by
  intro kvs
  induction kvs with
  | nil => intro acc _ _; simp
  | cons kv rest ih =>
    intro acc hnod hdisj
    simp only [List.map_cons, nodupKeys, Bool.and_eq_true,
      Bool.not_eq_true'] at hnod
    have hset : dictSet acc kv.1 kv.2 = acc ++ [kv] :=
      dictSet_absent kv.2 (hdisj kv (by simp))
    rw [List.foldl_cons, hset, ih (acc ++ [kv]) hnod.2 ?_]
    · simp
    · intro kv2 hkv2
      have h1 : dictGet acc kv2.1 = none := hdisj kv2 (by simp [hkv2])
      have h2 : kv2.1 ≠ kv.1 := by
        intro hh
        exact absurd (hh ▸ (List.mem_map_of_mem Prod.fst hkv2))
          (contains_false_not_mem hnod.1)
      rw [dictGet_append_right h1]
      have h3 : ¬ kv.1 = kv2.1 := fun hh => h2 (Eq.symm hh)
      simp [dictGet, h3]

/-- `dict(pairs)` is the identity on duplicate-free member lists. -/
theorem dictOfPairs_self (kvs : List (String × Json))
    (h : nodupKeys (kvs.map Prod.fst) = true) : dictOfPairs kvs = kvs := by
  unfold dictOfPairs
  rw [foldl_dictSet_fresh kvs [] h (fun _ _ => rfl)]
  rfl

/-! ## Round trip, part 4: the structural induction -/

/-- The array loop parses a serialized item tail onto its accumulator. -/
theorem parseArrLoop_rt : ∀ (xs : List Json) (lvl f : Nat) (acc : List Json)
    (rest : List Char), (∀ x ∈ xs, RTProp x) → wfLA xs = true →
    (serItemsA (lvl + 1) xs).length < f → numDelim rest = true →
    parseArrLoop f acc
      (serItemsA (lvl + 1) xs ++ (nlInd lvl ++ ']' :: rest)) =
      some (Json.arr (acc ++ xs), rest) := by
  intro xs
  induction xs with
  | nil =>
    intro lvl f acc rest _ _ hf hr
    cases f with
    | zero => exact absurd hf (by omega)
    | succ f =>
      have hskip : skipWs (serItemsA (lvl + 1) ([] : List Json) ++
          (nlInd lvl ++ ']' :: rest)) = ']' :: rest := by
        simp only [serItemsA, List.nil_append]
        rw [skipWs_nlInd, skipWs_cons_false (by decide)]
      simp only [parseArrLoop, hskip, if_true]
      simp
  | cons x xs ih =>
    intro lvl f acc rest hIH hwf hf hr
    cases f with
    | zero => exact absurd hf (by omega)
    | succ f =>
      simp only [wfLA, Bool.and_eq_true] at hwf
      have hlen : (serItemsA (lvl + 1) (x :: xs)).length =
          1 + (nlInd (lvl + 1)).length + (serVal (lvl + 1) x).length +
            (serItemsA (lvl + 1) xs).length := by
        simp [serItemsA]
        omega
      have hshape : serItemsA (lvl + 1) (x :: xs) ++ (nlInd lvl ++ ']' :: rest) =
          ',' :: (nlInd (lvl + 1) ++ (serVal (lvl + 1) x ++
            (serItemsA (lvl + 1) xs ++ (nlInd lvl ++ ']' :: rest)))) := by
        simp [serItemsA, List.append_assoc]
      rw [hshape]
      have hskip : skipWs (',' :: (nlInd (lvl + 1) ++ (serVal (lvl + 1) x ++
          (serItemsA (lvl + 1) xs ++ (nlInd lvl ++ ']' :: rest))))) =
          ',' :: (nlInd (lvl + 1) ++ (serVal (lvl + 1) x ++
          (serItemsA (lvl + 1) xs ++ (nlInd lvl ++ ']' :: rest)))) :=
        skipWs_cons_false (by decide)
      have hx := hIH x (by simp) hwf.1 (lvl + 1) f
        (serItemsA (lvl + 1) xs ++ (nlInd lvl ++ ']' :: rest))
        (by omega) (numDelim_itemsA _ _ _ _)
      have htail := ih lvl f (acc ++ [x]) rest (fun y hy => hIH y (by simp [hy]))
        hwf.2 (by omega) hr
      simp only [parseArrLoop, hskip, if_true, if_false]
      rw [skipWs_nlInd, skipWs_serVal]
      simp only [hx, htail]
      simp

/-- The object loop parses a serialized member tail onto its pair list. -/
theorem parseObjLoop_rt : ∀ (kvs : List (String × Json)) (lvl f : Nat)
    (pairs : List (String × Json)) (key : String) (v : Json)
    (rest : List Char),
    RTProp v → (∀ kv ∈ kvs, RTProp kv.2) → wfJson v = true →
    wfLO kvs = true →
    (serVal (lvl + 1) v).length + (serItemsO (lvl + 1) kvs).length + 2 < f →
    numDelim rest = true →
    parseObjLoop f pairs key (':' :: ' ' :: (serVal (lvl + 1) v ++
      (serItemsO (lvl + 1) kvs ++ (nlInd lvl ++ '}' :: rest)))) =
      some (Json.obj (dictOfPairs (pairs ++ (key, v) :: kvs)), rest) := by
  intro kvs
  induction kvs with
  | nil =>
    intro lvl f pairs key v rest hIHv _ hwfv _ hf hr
    cases f with
    | zero => exact absurd hf (by omega)
    | succ f =>
      have hskip : skipWs (':' :: ' ' :: (serVal (lvl + 1) v ++
          (serItemsO (lvl + 1) ([] : List (String × Json)) ++
            (nlInd lvl ++ '}' :: rest)))) =
          ':' :: ' ' :: (serVal (lvl + 1) v ++
          (serItemsO (lvl + 1) ([] : List (String × Json)) ++
            (nlInd lvl ++ '}' :: rest))) :=
        skipWs_cons_false (by decide)
      have hv := hIHv hwfv (lvl + 1) f
        (serItemsO (lvl + 1) ([] : List (String × Json)) ++
          (nlInd lvl ++ '}' :: rest)) (by omega) (numDelim_itemsO _ _ _ _)
      have hskip2 : skipWs (serItemsO (lvl + 1) ([] : List (String × Json)) ++
          (nlInd lvl ++ '}' :: rest)) = '}' :: rest := by
        simp only [serItemsO, List.nil_append]
        rw [skipWs_nlInd, skipWs_cons_false (by decide)]
      simp only [parseObjLoop, hskip, if_true]
      rw [show skipWs (' ' :: (serVal (lvl + 1) v ++
          (serItemsO (lvl + 1) ([] : List (String × Json)) ++
            (nlInd lvl ++ '}' :: rest)))) =
        skipWs (serVal (lvl + 1) v ++
          (serItemsO (lvl + 1) ([] : List (String × Json)) ++
            (nlInd lvl ++ '}' :: rest))) from rfl, skipWs_serVal]
      simp only [hv, hskip2, if_true]
  | cons kv kvs ih =>
    intro lvl f pairs key v rest hIHv hIH hwfv hwf hf hr
    cases f with
    | zero => exact absurd hf (by omega)
    | succ f =>
      obtain ⟨k2, v2⟩ := kv
      simp only [wfLO, Bool.and_eq_true] at hwf
      have hmemlen : (serMember (lvl + 1) (k2, v2)).length =
          (serStr k2.toList).length + 2 + (serVal (lvl + 1) v2).length := by
        simp [serMember]
        omega
      have hitemslen : (serItemsO (lvl + 1) ((k2, v2) :: kvs)).length =
          1 + (nlInd (lvl + 1)).length + (serMember (lvl + 1) (k2, v2)).length +
            (serItemsO (lvl + 1) kvs).length := by
        simp [serItemsO]
        omega
      have hstrlen : k2.toList.length + 2 ≤ (serStr k2.toList).length := by
        have := flatMap_escChar_length k2.toList
        simp only [serStr, List.length_cons, List.length_append]
        omega
      have hskip : skipWs (':' :: ' ' :: (serVal (lvl + 1) v ++
          (serItemsO (lvl + 1) ((k2, v2) :: kvs) ++
            (nlInd lvl ++ '}' :: rest)))) =
          ':' :: ' ' :: (serVal (lvl + 1) v ++
          (serItemsO (lvl + 1) ((k2, v2) :: kvs) ++
            (nlInd lvl ++ '}' :: rest))) :=
        skipWs_cons_false (by decide)
      have hv := hIHv hwfv (lvl + 1) f
        (serItemsO (lvl + 1) ((k2, v2) :: kvs) ++ (nlInd lvl ++ '}' :: rest))
        (by omega) (numDelim_itemsO _ _ _ _)
      have hshape : serItemsO (lvl + 1) ((k2, v2) :: kvs) ++
          (nlInd lvl ++ '}' :: rest) =
          ',' :: (nlInd (lvl + 1) ++ ('"' ::
            (k2.toList.flatMap escChar ++ ('"' :: (':' :: ' ' ::
              (serVal (lvl + 1) v2 ++ (serItemsO (lvl + 1) kvs ++
                (nlInd lvl ++ '}' :: rest)))))))) := by
        simp [serItemsO, serMember, serStr, List.append_assoc]
      have hkey := parseStrBody_flatMap k2.toList f
        (':' :: ' ' :: (serVal (lvl + 1) v2 ++ (serItemsO (lvl + 1) kvs ++
          (nlInd lvl ++ '}' :: rest)))) (by omega)
      have htail := ih lvl f (pairs ++ [(key, v)]) k2 v2 rest
        (hIH (k2, v2) (by simp)) (fun y hy => hIH y (by simp [hy]))
        hwf.1 hwf.2 (by omega) hr
      simp only [parseObjLoop, hskip, if_true]
      rw [show skipWs (' ' :: (serVal (lvl + 1) v ++
          (serItemsO (lvl + 1) ((k2, v2) :: kvs) ++
            (nlInd lvl ++ '}' :: rest)))) =
        skipWs (serVal (lvl + 1) v ++
          (serItemsO (lvl + 1) ((k2, v2) :: kvs) ++
            (nlInd lvl ++ '}' :: rest))) from rfl, skipWs_serVal]
      simp only [hv]
      rw [hshape, skipWs_cons_false (by decide)]
      simp only [if_true, if_false]
      rw [skipWs_nlInd, skipWs_cons_false (by decide)]
      simp only [if_true, if_false, hkey, mk_toList, htail]
      simp

/-- On a head that opens no string, object, array or keyword, `parseVal`
dispatches to the number scanner. -/
theorem parseVal_int (f : Nat) (c : Char) (cs : List Char)
    (h1 : c ≠ '"') (h2 : c ≠ '{') (h3 : c ≠ '[') (h4 : c ≠ 'n')
    (h5 : c ≠ 't') (h6 : c ≠ 'f') :
    parseVal (f + 1) (c :: cs) =
      match parseIntTok (c :: cs) with
      | some (n, r) => some (Json.num n, r)
      | none => none := by
  simp only [parseVal]
  rw [if_neg h1, if_neg h2, if_neg h3, if_neg h4, if_neg h5, if_neg h6]

/-- Every well-formed value is recovered by the scanner from its own
serialization, at any indentation level, given fuel beyond the serialized
length and a remainder that cannot extend a number token. -/
theorem serVal_parseVal (j : Json) : RTProp j := by
  induction j using Json.ind with
  | hnull =>
    intro _ lvl f rest hf _
    cases f with
    | zero => exact absurd hf (by omega)
    | succ f => rfl
  | hbool b =>
    intro _ lvl f rest hf _
    cases b with
    | true =>
      cases f with
      | zero => exact absurd hf (by omega)
      | succ f => rfl
    | false =>
      cases f with
      | zero => exact absurd hf (by omega)
      | succ f => rfl
  | hnum n =>
    intro _ lvl f rest hf hr
    cases f with
    | zero => exact absurd hf (by omega)
    | succ f =>
      by_cases hn : n < 0
      · have he : serVal lvl (Json.num n) = '-' :: natDigits n.natAbs := by
          simp [serVal, intChars, hn]
        rw [he, List.cons_append,
          parseVal_int f '-' (natDigits n.natAbs ++ rest) (by decide) (by decide)
            (by decide) (by decide) (by decide) (by decide),
          ← List.cons_append, ← he]
        have hi : parseIntTok (serVal lvl (Json.num n) ++ rest) =
            some (n, rest) := by
          have h2 : serVal lvl (Json.num n) = intChars n := rfl
          rw [h2]
          exact parseIntTok_intChars n rest hr
        rw [hi]
      · have he : serVal lvl (Json.num n) = natDigits n.toNat := by
          simp [serVal, intChars, hn]
        have hne := natDigits_ne_nil n.toNat
        obtain ⟨c, t, hct⟩ := List.exists_cons_of_ne_nil hne
        have hcd : isDigit c = true := by
          have := natDigits_all_digit n.toNat
          rw [hct] at this
          exact this c (by simp)
        obtain ⟨_, _, _, _, g5, g6, g7, g8, g9, g10, _, _, _, _⟩ :=
          digit_facts hcd
        rw [he, hct, List.cons_append,
          parseVal_int f c (t ++ rest) g5 g6 g7 g8 g9 g10,
          ← List.cons_append, ← hct]
        have hi : parseIntTok (natDigits n.toNat ++ rest) = some (n, rest) := by
          have h2 : intChars n = natDigits n.toNat := by simp [intChars, hn]
          rw [← h2]
          exact parseIntTok_intChars n rest hr
        rw [hi]
  | hstr s =>
    intro _ lvl f rest hf hr
    cases f with
    | zero => exact absurd hf (by omega)
    | succ f =>
      have hshape : serVal lvl (Json.str s) ++ rest =
          '"' :: (s.toList.flatMap escChar ++ ('"' :: rest)) := by
        simp [serVal, serStr, List.append_assoc]
      have hlen2 : (serVal lvl (Json.str s)).length =
          (s.toList.flatMap escChar).length + 2 := by
        simp only [serVal, serStr, List.length_cons, List.length_append,
          List.length_singleton, List.length_nil]
      have hfl := flatMap_escChar_length s.toList
      rw [hshape]
      have hbody := parseStrBody_flatMap s.toList f rest (by omega)
      simp only [parseVal, if_true]
      simp only [hbody, mk_toList]
  | harr xs hIH =>
    cases xs with
    | nil =>
      intro _ lvl f rest hf _
      cases f with
      | zero => exact absurd hf (by omega)
      | succ f =>
        cases f with
        | zero => simp [serVal] at hf
        | succ f => rfl
    | cons x xs =>
      intro hwf lvl f rest hf hr
      simp only [wfJson, wfLA, Bool.and_eq_true] at hwf
      have hlen : (serVal lvl (Json.arr (x :: xs))).length =
          1 + (nlInd (lvl + 1)).length + (serVal (lvl + 1) x).length +
            (serItemsA (lvl + 1) xs).length + (nlInd lvl).length + 1 := by
        simp [serVal]
        omega
      have hnl1 := nlInd_length (lvl + 1)
      have hnl0 := nlInd_length lvl
      cases f with
      | zero => exact absurd hf (by omega)
      | succ f =>
        cases f with
        | zero => exact absurd hf (by omega)
        | succ f =>
          have hshape : serVal lvl (Json.arr (x :: xs)) ++ rest =
              '[' :: (nlInd (lvl + 1) ++ (serVal (lvl + 1) x ++
                (serItemsA (lvl + 1) xs ++ (nlInd lvl ++ (']' :: rest))))) := by
            simp [serVal, List.append_assoc]
          rw [hshape]
          show parseArrStart (f + 1) (nlInd (lvl + 1) ++ (serVal (lvl + 1) x ++
            (serItemsA (lvl + 1) xs ++ (nlInd lvl ++ (']' :: rest))))) =
            some (Json.arr (x :: xs), rest)
          obtain ⟨c, t, hct, hws, hbr, _, _⟩ := serVal_head (lvl + 1) x
          have hskip : skipWs (nlInd (lvl + 1) ++ (serVal (lvl + 1) x ++
              (serItemsA (lvl + 1) xs ++ (nlInd lvl ++ (']' :: rest))))) =
              c :: (t ++ (serItemsA (lvl + 1) xs ++
                (nlInd lvl ++ (']' :: rest)))) := by
            rw [skipWs_nlInd, skipWs_serVal, hct, List.cons_append]
          simp only [parseArrStart, hskip]
          rw [if_neg hbr, ← List.cons_append, ← hct]
          have hx := hIH x (by simp) hwf.1 (lvl + 1) f
            (serItemsA (lvl + 1) xs ++ (nlInd lvl ++ (']' :: rest)))
            (by omega) (numDelim_itemsA _ _ _ _)
          simp only [hx]
          rw [parseArrLoop_rt xs lvl f [x] rest
            (fun y hy => hIH y (by simp [hy])) hwf.2 (by omega) hr]
          simp
  | hobj kvs hIH =>
    cases kvs with
    | nil =>
      intro _ lvl f rest hf _
      cases f with
      | zero => exact absurd hf (by omega)
      | succ f =>
        cases f with
        | zero => simp [serVal] at hf
        | succ f => rfl
    | cons kv kvs =>
      obtain ⟨k, v⟩ := kv
      intro hwf lvl f rest hf hr
      simp only [wfJson, wfLO, Bool.and_eq_true] at hwf
      have hmemlen : (serMember (lvl + 1) (k, v)).length =
          (serStr k.toList).length + 2 + (serVal (lvl + 1) v).length := by
        simp [serMember]
        omega
      have hstrlen : k.toList.length + 2 ≤ (serStr k.toList).length := by
        have := flatMap_escChar_length k.toList
        simp only [serStr, List.length_cons, List.length_append]
        omega
      have hlen : (serVal lvl (Json.obj ((k, v) :: kvs))).length =
          1 + (nlInd (lvl + 1)).length + (serMember (lvl + 1) (k, v)).length +
            (serItemsO (lvl + 1) kvs).length + (nlInd lvl).length + 1 := by
        simp [serVal]
        omega
      have hnl1 := nlInd_length (lvl + 1)
      have hnl0 := nlInd_length lvl
      cases f with
      | zero => exact absurd hf (by omega)
      | succ f =>
        cases f with
        | zero => exact absurd hf (by omega)
        | succ f =>
          have hshape : serVal lvl (Json.obj ((k, v) :: kvs)) ++ rest =
              '{' :: (nlInd (lvl + 1) ++ ('"' :: (k.toList.flatMap escChar ++
                ('"' :: (':' :: ' ' :: (serVal (lvl + 1) v ++
                  (serItemsO (lvl + 1) kvs ++
                    (nlInd lvl ++ '}' :: rest)))))))) := by
            simp [serVal, serMember, serStr, List.append_assoc]
          rw [hshape]
          show parseObjStart (f + 1) (nlInd (lvl + 1) ++ ('"' ::
            (k.toList.flatMap escChar ++ ('"' :: (':' :: ' ' ::
              (serVal (lvl + 1) v ++ (serItemsO (lvl + 1) kvs ++
                (nlInd lvl ++ '}' :: rest)))))))) =
            some (Json.obj ((k, v) :: kvs), rest)
          have hskip : skipWs (nlInd (lvl + 1) ++ ('"' ::
              (k.toList.flatMap escChar ++ ('"' :: (':' :: ' ' ::
                (serVal (lvl + 1) v ++ (serItemsO (lvl + 1) kvs ++
                  (nlInd lvl ++ '}' :: rest)))))))) =
              '"' :: (k.toList.flatMap escChar ++ ('"' :: (':' :: ' ' ::
                (serVal (lvl + 1) v ++ (serItemsO (lvl + 1) kvs ++
                  (nlInd lvl ++ '}' :: rest)))))) := by
            rw [skipWs_nlInd, skipWs_cons_false (by decide)]
          simp only [parseObjStart, hskip, if_true, if_false]
          have hkey := parseStrBody_flatMap k.toList f
            (':' :: ' ' :: (serVal (lvl + 1) v ++ (serItemsO (lvl + 1) kvs ++
              (nlInd lvl ++ '}' :: rest)))) (by omega)
          simp only [hkey, mk_toList]
          rw [parseObjLoop_rt kvs lvl f [] k v rest (hIH (k, v) (by simp))
            (fun y hy => hIH y (by simp [hy])) hwf.2.1 hwf.2.2 (by omega) hr]
          rw [List.nil_append, dictOfPairs_self _ hwf.1, if_neg (by decide)]

/-- `json.loads` inverts `json.dumps` on any well-formed document (shared
by the round-trip and reachability results). -/
theorem parseTop_save (j : Json) (hwf : wfJson j = true) :
    parseTop (_save j) = some j := by
  have htl : (String.mk (serVal 0 j ++ (['\n'] : List Char))).toList =
      serVal 0 j ++ ['\n'] := rfl
  simp only [parseTop, _save, htl, skipWs_serVal]
  have hp := serVal_parseVal j hwf 0
    (2 * (serVal 0 j ++ (['\n'] : List Char)).length + 2) ['\n']
    (by simp only [List.length_append, List.length_cons, List.length_nil]; omega)
    (by decide)
  simp only [hp]
  rfl

/-- C5: saving any well-formed ledger document with `_save` and loading it
back with `_load` yields the identical structure. -/
theorem save_load_roundtrip (j : Json) (hwf : wfJson j = true) :
    _load (some (_save j)) = some j := by
  show parseTop (_save j) = some j
  exact parseTop_save j hwf

/-- Witness: the round trip on a concrete two-sprint ledger document. -/
theorem save_load_roundtrip_witness :
    wfJson (Json.obj [(("sprints"), Json.obj
      [(("001"), Json.obj [(("status"), Json.str ("completed")),
        (("started_at"), Json.str ("2024-01-01T00:00:00Z")),
        (("completed_at"), Json.str ("2024-01-02T00:00:00Z"))]),
       (("002"), Json.obj [(("status"), Json.str ("in_progress")),
        (("started_at"), Json.str ("2024-01-03T00:00:00Z"))])])]) = true ∧
    _load (some (_save (Json.obj [(("sprints"), Json.obj
      [(("001"), Json.obj [(("status"), Json.str ("completed")),
        (("started_at"), Json.str ("2024-01-01T00:00:00Z")),
        (("completed_at"), Json.str ("2024-01-02T00:00:00Z"))]),
       (("002"), Json.obj [(("status"), Json.str ("in_progress")),
        (("started_at"), Json.str ("2024-01-03T00:00:00Z"))])])]))) =
      some (Json.obj [(("sprints"), Json.obj
      [(("001"), Json.obj [(("status"), Json.str ("completed")),
        (("started_at"), Json.str ("2024-01-01T00:00:00Z")),
        (("completed_at"), Json.str ("2024-01-02T00:00:00Z"))]),
       (("002"), Json.obj [(("status"), Json.str ("in_progress")),
        (("started_at"), Json.str ("2024-01-03T00:00:00Z"))])])]) :=
  ⟨by decide, save_load_roundtrip _ (by decide)⟩

/-- C7: `_load` returns exactly `{"sprints": {}}` when the
ledger file is absent, and the parsed JSON contents of the file when it is
present. -/
theorem load_semantics :
    _load none = some (Json.obj [(("sprints"), Json.obj [])]) ∧
    (∀ (s : String) (j : Json), parseTop s = some j →
      _load (some s) = some j) :=
  ⟨rfl, fun s j h => h⟩

/-- Witness: `_load` on a present concrete file text parses it. -/
theorem load_semantics_witness :
    parseTop (("\x7b\n  \"sprints\": \x7b\x7d\n\x7d\n")) =
      some (Json.obj [(("sprints"), Json.obj [])]) ∧
    _load (some (("\x7b\n  \"sprints\": \x7b\x7d\n\x7d\n"))) =
      some (Json.obj [(("sprints"), Json.obj [])]) :=
  ⟨by decide, load_semantics.2 _ _ (by decide)⟩

/-! ## Reachable-state invariant: preservation lemmas -/

/-- A key the lookup misses is not among the keys. -/
theorem dictGet_none_not_mem_keys {d : List (String × Json)} {k : String}
    (h : dictGet d k = none) : k ∉ d.map Prod.fst := by
  induction d with
  | nil => simp
  | cons kv rest ih =>
    obtain ⟨k1, v1⟩ := kv
    simp only [dictGet] at h
    by_cases hk : k1 = k
    · rw [if_pos hk] at h
      cases h
    · rw [if_neg hk] at h
      intro hmem
      rcases List.mem_cons.mp hmem with h1 | h1
      · exact hk (Eq.symm h1)
      · exact ih h h1

/-- Appending one fresh key keeps the keys duplicate-free. -/
theorem nodupKeys_snoc {ks : List String} {k : String}
    (h : nodupKeys ks = true) (hm : k ∉ ks) : nodupKeys (ks ++ [k]) = true := by
  induction ks with
  | nil => simp [nodupKeys]
  | cons a ks ih =>
    simp only [nodupKeys, Bool.and_eq_true, Bool.not_eq_true'] at h
    simp only [List.mem_cons] at hm
    push_neg at hm
    simp only [List.cons_append, nodupKeys, Bool.and_eq_true, Bool.not_eq_true']
    refine ⟨?_, ih h.2 hm.2⟩
    have h1 : a ∉ ks := by simpa using h.1
    have h2 : a ∉ ks ++ [k] := by
      simp only [List.mem_append, List.mem_singleton]
      push_neg
      exact ⟨h1, fun hh => hm.1 (Eq.symm hh)⟩
    simpa using h2

/-- Overwriting a present key leaves the key list unchanged. -/
theorem keys_dictSet_present {d : List (String × Json)} {k : String} {w : Json}
    (v : Json) (h : dictGet d k = some w) :
    (dictSet d k v).map Prod.fst = d.map Prod.fst := by
  induction d with
  | nil => cases h
  | cons kv rest ih =>
    obtain ⟨k1, v1⟩ := kv
    simp only [dictGet] at h
    by_cases hk : k1 = k
    · simp [dictSet, hk]
    · rw [if_neg hk] at h
      simp [dictSet, hk, ih h]

/-- `d[k] = v` keeps keys duplicate-free. -/
theorem nodupKeys_dictSet {d : List (String × Json)} (k : String) (v : Json)
    (h : nodupKeys (d.map Prod.fst) = true) :
    nodupKeys ((dictSet d k v).map Prod.fst) = true := by
  cases hg : dictGet d k with
  | none =>
    rw [dictSet_absent v hg, List.map_append]
    exact nodupKeys_snoc h (dictGet_none_not_mem_keys hg)
  | some w =>
    rw [keys_dictSet_present v hg]
    exact h

/-- `setdefault` keeps keys duplicate-free. -/
theorem nodupKeys_dictSetdefault {d : List (String × Json)} (k : String)
    (v : Json) (h : nodupKeys (d.map Prod.fst) = true) :
    nodupKeys ((dictSetdefault d k v).map Prod.fst) = true := by
  unfold dictSetdefault
  cases hg : dictGet d k with
  | none =>
    rw [if_neg (by simp [hg]), List.map_append]
    exact nodupKeys_snoc h (dictGet_none_not_mem_keys hg)
  | some w =>
    rw [if_pos (by simp [hg])]
    exact h

/-- Member well-formedness over an append. -/
theorem wfLO_append {d1 d2 : List (String × Json)} (h1 : wfLO d1 = true)
    (h2 : wfLO d2 = true) : wfLO (d1 ++ d2) = true := by
  induction d1 with
  | nil => simpa
  | cons kv rest ih =>
    simp only [wfLO, Bool.and_eq_true] at h1
    simp only [List.cons_append, wfLO, Bool.and_eq_true]
    exact ⟨h1.1, ih h1.2⟩

/-- `d[k] = v` keeps all member values well-formed. -/
theorem wfLO_dictSet {d : List (String × Json)} {k : String} {v : Json}
    (hd : wfLO d = true) (hv : wfJson v = true) :
    wfLO (dictSet d k v) = true := by
  induction d with
  | nil => simp [dictSet, wfLO, hv]
  | cons kv rest ih =>
    obtain ⟨k1, v1⟩ := kv
    simp only [wfLO, Bool.and_eq_true] at hd
    by_cases hk : k1 = k
    · simp [dictSet, hk, wfLO, hv, hd.2]
    · simp [dictSet, hk, wfLO, hd.1, ih hd.2]

/-- `setdefault` keeps all member values well-formed. -/
theorem wfLO_dictSetdefault {d : List (String × Json)} {k : String} {v : Json}
    (hd : wfLO d = true) (hv : wfJson v = true) :
    wfLO (dictSetdefault d k v) = true := by
  unfold dictSetdefault
  split
  · exact hd
  · exact wfLO_append hd (by simp [wfLO, hv])

/-- A member value of a well-formed member list is well-formed. -/
theorem wfJson_of_mem_wfLO {kvs : List (String × Json)} {kv : String × Json}
    (h : wfLO kvs = true) (hm : kv ∈ kvs) : wfJson kv.2 = true := by
  induction kvs with
  | nil => cases hm
  | cons a rest ih =>
    simp only [wfLO, Bool.and_eq_true] at h
    rcases List.mem_cons.mp hm with h1 | h1
    · rw [h1]
      exact h.1
    · exact ih h.2 h1

/-- `asObj` succeeds only on the object it exposes. -/
theorem asObj_some {d : Json} {top : List (String × Json)}
    (h : d.asObj = some top) : d = Json.obj top := by
  cases d <;> simp_all [Json.asObj]

/-- The default document of a missing file is good. -/
theorem goodDoc_default : GoodDoc (Json.obj [(("sprints"), Json.obj [])]) := by
  refine ⟨by decide, ?_⟩
  intro top sprints e k htop hsp hent
  simp only [Json.asObj, Option.some.injEq] at htop
  subst htop
  simp only [show dictGet [(("sprints"), Json.obj [])] ("sprints") =
      some (Json.obj []) from rfl, Option.some.injEq, Json.obj.injEq] at hsp
  subst hsp
  simp [dictGet] at hent

/-- `cmd_start` saves only good documents when run on one. -/
theorem goodDoc_start {now num : String} {d : Json} {r : CmdOut} {d2 : Json}
    (hg : GoodDoc d) (hr : cmd_start now num d = some r)
    (hs : r.saved = some d2) : GoodDoc d2 := by
  obtain ⟨hwf, hinv⟩ := hg
  unfold cmd_start at hr
  simp only [Option.bind_eq_bind] at hr
  obtain ⟨n, hn, hr1⟩ := Option.bind_eq_some.mp hr
  obtain ⟨top, htop, hr2⟩ := Option.bind_eq_some.mp hr1
  obtain ⟨sprintsJ, hspJ, hr3⟩ := Option.bind_eq_some.mp hr2
  obtain ⟨sprints, hsp, hr4⟩ := Option.bind_eq_some.mp hr3
  obtain ⟨entry, hent, hr5⟩ := Option.bind_eq_some.mp hr4
  obtain rfl : d = Json.obj top := asObj_some htop
  obtain rfl : sprintsJ = Json.obj sprints := asObj_some hsp
  simp only [wfJson, Bool.and_eq_true] at hwf
  have hwfsp : wfJson (Json.obj sprints) = true :=
    wfJson_of_mem_wfLO hwf.2 (dictGet_mem hspJ)
  simp only [wfJson, Bool.and_eq_true] at hwfsp
  have hwfent : wfJson (Json.obj entry) = true := by
    cases hge : dictGet sprints (formatKey n) with
    | none =>
      rw [hge, Option.getD_none] at hent
      simp only [Json.asObj, Option.some.injEq] at hent
      rw [← hent]
      rfl
    | some ej =>
      rw [hge, Option.getD_some] at hent
      have hej : ej = Json.obj entry := asObj_some hent
      rw [← hej]
      exact wfJson_of_mem_wfLO hwfsp.2 (dictGet_mem hge)
  simp only [wfJson, Bool.and_eq_true] at hwfent
  by_cases hc : dictGet entry ("status") = some (Json.str ("completed"))
  · rw [if_pos hc] at hr5
    rw [Option.pure_def, Option.some.injEq] at hr5
    subst hr5
    simp at hs
  · rw [if_neg hc] at hr5
    rw [Option.pure_def, Option.some.injEq] at hr5
    subst hr5
    simp only [Option.some.injEq] at hs
    subst hs
    have hwfe2 : wfJson (Json.obj (dictSetdefault
        (dictSet entry ("status") (Json.str ("in_progress")))
        ("started_at") (Json.str now))) = true := by
      simp only [wfJson, Bool.and_eq_true]
      exact ⟨nodupKeys_dictSetdefault _ _ (nodupKeys_dictSet _ _ hwfent.1),
        wfLO_dictSetdefault (wfLO_dictSet hwfent.2 rfl) rfl⟩
    have hwfsp2 : wfJson (Json.obj (dictSet
        (dictSetdefault sprints (formatKey n) (Json.obj []))
        (formatKey n) (Json.obj (dictSetdefault
          (dictSet entry ("status") (Json.str ("in_progress")))
          ("started_at") (Json.str now))))) = true := by
      simp only [wfJson, Bool.and_eq_true]
      exact ⟨nodupKeys_dictSet _ _ (nodupKeys_dictSetdefault _ _ hwfsp.1),
        wfLO_dictSet (wfLO_dictSetdefault hwfsp.2 rfl) hwfe2⟩
    constructor
    · simp only [wfJson, Bool.and_eq_true]
      exact ⟨nodupKeys_dictSet _ _ hwf.1, wfLO_dictSet hwf.2 hwfsp2⟩
    · intro top2 sprints2 e k2 htop2 hsp2 hent2
      simp only [Json.asObj, Option.some.injEq] at htop2
      subst htop2
      rw [dictGet_dictSet_self] at hsp2
      simp only [Option.some.injEq, Json.obj.injEq] at hsp2
      subst hsp2
      by_cases hk2 : k2 = formatKey n
      · subst hk2
        rw [dictGet_dictSet_self] at hent2
        simp only [Option.some.injEq, Json.obj.injEq] at hent2
        subst hent2
        constructor
        · intro hcomp
          have hst : dictGet (dictSetdefault
              (dictSet entry ("status") (Json.str ("in_progress")))
              ("started_at") (Json.str now)) ("status") =
              some (Json.str ("in_progress")) := by
            rw [dictGet_dictSetdefault_ne _ _ _ _ (by decide),
              dictGet_dictSet_self]
          rw [hst] at hcomp
          exact absurd hcomp (by decide)
        · intro _
          rw [dictGet_dictSetdefault_self]
          rfl
      · rw [dictGet_dictSet_ne _ _ _ _ hk2,
          dictGet_dictSetdefault_ne _ _ _ _ hk2] at hent2
        exact hinv top sprints e k2 rfl hspJ hent2

/-- `cmd_complete` saves only good documents when run on one. -/
theorem goodDoc_complete {now1 now2 num : String} {d : Json} {r : CmdOut}
    {d2 : Json} (hg : GoodDoc d) (hr : cmd_complete now1 now2 num d = some r)
    (hs : r.saved = some d2) : GoodDoc d2 := by
  obtain ⟨hwf, hinv⟩ := hg
  unfold cmd_complete at hr
  simp only [Option.bind_eq_bind] at hr
  obtain ⟨n, hn, hr1⟩ := Option.bind_eq_some.mp hr
  obtain ⟨top, htop, hr2⟩ := Option.bind_eq_some.mp hr1
  obtain ⟨sprintsJ, hspJ, hr3⟩ := Option.bind_eq_some.mp hr2
  obtain ⟨sprints, hsp, hr4⟩ := Option.bind_eq_some.mp hr3
  obtain ⟨entry, hent, hr5⟩ := Option.bind_eq_some.mp hr4
  obtain rfl : d = Json.obj top := asObj_some htop
  obtain rfl : sprintsJ = Json.obj sprints := asObj_some hsp
  simp only [wfJson, Bool.and_eq_true] at hwf
  have hwfsp : wfJson (Json.obj sprints) = true :=
    wfJson_of_mem_wfLO hwf.2 (dictGet_mem hspJ)
  simp only [wfJson, Bool.and_eq_true] at hwfsp
  have hwfent : wfJson (Json.obj entry) = true := by
    cases hge : dictGet sprints (formatKey n) with
    | none =>
      rw [hge, Option.getD_none] at hent
      simp only [Json.asObj, Option.some.injEq] at hent
      rw [← hent]
      rfl
    | some ej =>
      rw [hge, Option.getD_some] at hent
      have hej : ej = Json.obj entry := asObj_some hent
      rw [← hej]
      exact wfJson_of_mem_wfLO hwfsp.2 (dictGet_mem hge)
  simp only [wfJson, Bool.and_eq_true] at hwfent
  rw [Option.pure_def, Option.some.injEq] at hr5
  subst hr5
  simp only [Option.some.injEq] at hs
  subst hs
  have hwfe3 : wfJson (Json.obj (dictSet (dictSetdefault
      (dictSet entry ("status") (Json.str ("completed")))
      ("started_at") (Json.str now1)) ("completed_at")
      (Json.str now2))) = true := by
    simp only [wfJson, Bool.and_eq_true]
    exact ⟨nodupKeys_dictSet _ _
        (nodupKeys_dictSetdefault _ _ (nodupKeys_dictSet _ _ hwfent.1)),
      wfLO_dictSet (wfLO_dictSetdefault (wfLO_dictSet hwfent.2 rfl) rfl) rfl⟩
  have hwfsp2 : wfJson (Json.obj (dictSet
      (dictSetdefault sprints (formatKey n) (Json.obj []))
      (formatKey n) (Json.obj (dictSet (dictSetdefault
        (dictSet entry ("status") (Json.str ("completed")))
        ("started_at") (Json.str now1)) ("completed_at")
        (Json.str now2))))) = true := by
    simp only [wfJson, Bool.and_eq_true]
    exact ⟨nodupKeys_dictSet _ _ (nodupKeys_dictSetdefault _ _ hwfsp.1),
      wfLO_dictSet (wfLO_dictSetdefault hwfsp.2 rfl) hwfe3⟩
  constructor
  · simp only [wfJson, Bool.and_eq_true]
    exact ⟨nodupKeys_dictSet _ _ hwf.1, wfLO_dictSet hwf.2 hwfsp2⟩
  · intro top2 sprints2 e k2 htop2 hsp2 hent2
    simp only [Json.asObj, Option.some.injEq] at htop2
    subst htop2
    rw [dictGet_dictSet_self] at hsp2
    simp only [Option.some.injEq, Json.obj.injEq] at hsp2
    subst hsp2
    by_cases hk2 : k2 = formatKey n
    · subst hk2
      rw [dictGet_dictSet_self] at hent2
      simp only [Option.some.injEq, Json.obj.injEq] at hent2
      subst hent2
      constructor
      · intro _
        constructor
        · rw [dictGet_dictSet_ne _ _ _ _ (by decide),
            dictGet_dictSetdefault_self]
          rfl
        · rw [dictGet_dictSet_self]
          rfl
      · intro hip
        have hst : dictGet (dictSet (dictSetdefault
            (dictSet entry ("status") (Json.str ("completed")))
            ("started_at") (Json.str now1)) ("completed_at")
            (Json.str now2)) ("status") =
            some (Json.str ("completed")) := by
          rw [dictGet_dictSet_ne _ _ _ _ (by decide),
            dictGet_dictSetdefault_ne _ _ _ _ (by decide),
            dictGet_dictSet_self]
        rw [hst] at hip
        exact absurd hip (by decide)
    · rw [dictGet_dictSet_ne _ _ _ _ hk2,
        dictGet_dictSetdefault_ne _ _ _ _ hk2] at hent2
      exact hinv top sprints e k2 rfl hspJ hent2

/-- A good file always loads, to a good document. -/
theorem goodFile_load {file : Option String} (h : GoodFile file) :
    ∃ d, _load file = some d ∧ GoodDoc d := by
  rcases h with rfl | ⟨d, rfl, hg⟩
  · exact ⟨Json.obj [(("sprints"), Json.obj [])], rfl, goodDoc_default⟩
  · exact ⟨d, parseTop_save d hg.1, hg⟩

/-- One `start`/`complete` invocation preserves goodness of the file. -/
theorem goodFile_step (file : Option String) (c : Cmd) (h : GoodFile file) :
    GoodFile (stepFile file c) := by
  obtain ⟨d, hload, hg⟩ := goodFile_load h
  cases c with
  | start num now =>
    simp only [stepFile, Option.bind_eq_bind, hload, Option.some_bind]
    cases hr : cmd_start now num d with
    | none => exact h
    | some r =>
      show GoodFile (applySave r.saved file)
      cases hs : r.saved with
      | none => exact h
      | some d2 =>
        right
        exact ⟨d2, rfl, goodDoc_start hg hr hs⟩
  | complete num n1 n2 =>
    simp only [stepFile, Option.bind_eq_bind, hload, Option.some_bind]
    cases hr : cmd_complete n1 n2 num d with
    | none => exact h
    | some r =>
      show GoodFile (applySave r.saved file)
      cases hs : r.saved with
      | none => exact h
      | some d2 =>
        right
        exact ⟨d2, rfl, goodDoc_complete hg hr hs⟩

/-- Every file reachable from the empty ledger is good. -/
theorem goodFile_run (cmds : List Cmd) : GoodFile (runLedger cmds) := by
  have h : ∀ (file : Option String), GoodFile file →
      GoodFile (cmds.foldl stepFile file) := by
    induction cmds with
    | nil =>
      intro file h
      exact h
    | cons c cs ih =>
      intro file h
      exact ih _ (goodFile_step file c h)
  exact h none (Or.inl rfl)

/-- C6: in every ledger state reachable from the empty ledger by a sequence
of `start` and `complete` commands, every entry with status `completed` has
both `started_at` and `completed_at` set, and every entry with status
`in_progress` has `started_at` set. -/
theorem reachable_invariant (cmds : List Cmd)
    (top sprints e : List (String × Json)) (k : String)
    (hload : _load (runLedger cmds) = some (Json.obj top))
    (hsp : dictGet top ("sprints") = some (Json.obj sprints))
    (hent : dictGet sprints k = some (Json.obj e)) :
    (dictGet e ("status") = some (Json.str ("completed")) →
      (dictGet e ("started_at")).isSome = true ∧
      (dictGet e ("completed_at")).isSome = true) ∧
    (dictGet e ("status") = some (Json.str ("in_progress")) →
      (dictGet e ("started_at")).isSome = true) := by
  obtain ⟨d, hload2, hg⟩ := goodFile_load (goodFile_run cmds)
  rw [hload2] at hload
  simp only [Option.some.injEq] at hload
  subst hload
  exact hg.2 top sprints e k rfl hsp hent

/-- Witness: after `complete 7` from the empty ledger, the reloaded entry
`007` is completed with both timestamps. -/
theorem reachable_invariant_witness :
    _load (runLedger [Cmd.complete ("7") ("B") ("C")]) = some (Json.obj
      [(("sprints"), Json.obj [(("007"), Json.obj
        [(("status"), Json.str ("completed")),
         (("started_at"), Json.str ("B")),
         (("completed_at"), Json.str ("C"))])])]) ∧
    ((dictGet [(("status"), Json.str ("completed")),
         (("started_at"), Json.str ("B")),
         (("completed_at"), Json.str ("C"))] ("status") =
        some (Json.str ("completed")) →
      (dictGet [(("status"), Json.str ("completed")),
         (("started_at"), Json.str ("B")),
         (("completed_at"), Json.str ("C"))] ("started_at")).isSome = true ∧
      (dictGet [(("status"), Json.str ("completed")),
         (("started_at"), Json.str ("B")),
         (("completed_at"), Json.str ("C"))] ("completed_at")).isSome = true) ∧
    (dictGet [(("status"), Json.str ("completed")),
         (("started_at"), Json.str ("B")),
         (("completed_at"), Json.str ("C"))] ("status") =
        some (Json.str ("in_progress")) →
      (dictGet [(("status"), Json.str ("completed")),
         (("started_at"), Json.str ("B")),
         (("completed_at"), Json.str ("C"))] ("started_at")).isSome = true)) :=
  ⟨by decide,
   reachable_invariant [Cmd.complete ("7") ("B") ("C")]
     [(("sprints"), Json.obj [(("007"), Json.obj
        [(("status"), Json.str ("completed")),
         (("started_at"), Json.str ("B")),
         (("completed_at"), Json.str ("C"))])])]
     [(("007"), Json.obj
        [(("status"), Json.str ("completed")),
         (("started_at"), Json.str ("B")),
         (("completed_at"), Json.str ("C"))])]
     [(("status"), Json.str ("completed")),
      (("started_at"), Json.str ("B")),
      (("completed_at"), Json.str ("C"))]
     ("007") (by decide) (by decide) (by decide)⟩

/-! ## Concrete witnesses for the command-layer results -/

/-- Witness: `start 1` against a ledger file whose entry `001` is completed
is refused and the file text is untouched. -/
theorem start_completed_rejected_witness :
    pyInt? ("1") = some 1 ∧
    _load (some ("\x7b\"sprints\": \x7b\"001\": \x7b\"status\": \"completed\"\x7d\x7d\x7d")) =
      some (Json.obj [(("sprints"), Json.obj [(("001"),
        Json.obj [(("status"), Json.str ("completed"))])])]) ∧
    dictGet [(("sprints"), Json.obj [(("001"),
        Json.obj [(("status"), Json.str ("completed"))])])] ("sprints") =
      some (Json.obj [(("001"), Json.obj [(("status"),
        Json.str ("completed"))])]) ∧
    (dictGet [(("001"), Json.obj [(("status"), Json.str ("completed"))])]
        (formatKey 1)).getD (Json.obj []) =
      Json.obj [(("status"), Json.str ("completed"))] ∧
    dictGet [(("status"), Json.str ("completed"))] ("status") =
      some (Json.str ("completed")) ∧
    main ("H") [] ("T1") ("T2") [("start"), ("1")]
        (some ("\x7b\"sprints\": \x7b\"001\": \x7b\"status\": \"completed\"\x7d\x7d\x7d")) =
      some ⟨some ("\x7b\"sprints\": \x7b\"001\": \x7b\"status\": \"completed\"\x7d\x7d\x7d"), 1,
        [("Sprint ") ++ formatKey 1 ++
          (" is already completed — cannot reopen.")]⟩ :=
  ⟨by decide, by decide, by decide, by decide, by decide,
   start_completed_rejected ("H") [] ("T1") ("T2") ("1")
     (some ("\x7b\"sprints\": \x7b\"001\": \x7b\"status\": \"completed\"\x7d\x7d\x7d")) 1
     [(("sprints"), Json.obj [(("001"),
       Json.obj [(("status"), Json.str ("completed"))])])]
     [(("001"), Json.obj [(("status"), Json.str ("completed"))])]
     [(("status"), Json.str ("completed"))]
     (by decide) (by decide) (by decide) (by decide) (by decide)⟩

/-- Witness: `complete 2` on an empty ledger creates a completed `002`
entry with both timestamps. -/
theorem cmd_complete_sets_fields_witness :
    pyInt? ("2") = some 2 ∧
    dictGet [(("sprints"), Json.obj [])] ("sprints") = some (Json.obj []) ∧
    (dictGet ([] : List (String × Json)) (formatKey 2)).getD (Json.obj []) =
      Json.obj [] ∧
    dictGet ([] : List (String × Json)) ("status") ≠
      some (Json.str ("completed")) ∧
    ∃ data2 sprints2 e2,
      cmd_complete ("A") ("B") ("2") (Json.obj [(("sprints"), Json.obj [])]) =
        some ⟨some (Json.obj data2), 0,
          [("Sprint ") ++ formatKey 2 ++ (" marked completed.")]⟩ ∧
      dictGet data2 ("sprints") = some (Json.obj sprints2) ∧
      dictGet sprints2 (formatKey 2) = some (Json.obj e2) ∧
      dictGet e2 ("status") = some (Json.str ("completed")) ∧
      dictGet e2 ("completed_at") = some (Json.str ("B")) ∧
      dictGet e2 ("started_at") =
        some ((dictGet ([] : List (String × Json)) ("started_at")).getD
          (Json.str ("A"))) :=
  ⟨by decide, by decide, by decide, by decide,
   cmd_complete_sets_fields ("A") ("B") ("2") 2 [(("sprints"), Json.obj [])]
     [] [] (by decide) (by decide) (by decide) (by decide)⟩

/-- Witness: `start 3` on an empty ledger, then `start 3` again, settles on
the same `in_progress` entry. -/
theorem cmd_start_idempotent_witness :
    pyInt? ("3") = some 3 ∧
    dictGet [(("sprints"), Json.obj [])] ("sprints") = some (Json.obj []) ∧
    (dictGet ([] : List (String × Json)) (formatKey 3)).getD (Json.obj []) =
      Json.obj [] ∧
    dictGet ([] : List (String × Json)) ("status") ≠
      some (Json.str ("completed")) ∧
    ∃ data2 sprints2 e2,
      cmd_start ("A") ("3") (Json.obj [(("sprints"), Json.obj [])]) =
        some ⟨some (Json.obj data2), 0,
          [("Sprint ") ++ formatKey 3 ++ (" marked in_progress.")]⟩ ∧
      dictGet data2 ("sprints") = some (Json.obj sprints2) ∧
      dictGet sprints2 (formatKey 3) = some (Json.obj e2) ∧
      dictGet e2 ("status") = some (Json.str ("in_progress")) ∧
      dictGet e2 ("started_at") =
        some ((dictGet ([] : List (String × Json)) ("started_at")).getD
          (Json.str ("A"))) ∧
      cmd_start ("B") ("3") (Json.obj data2) = some ⟨some (Json.obj data2), 0,
        [("Sprint ") ++ formatKey 3 ++ (" marked in_progress.")]⟩ :=
  ⟨by decide, by decide, by decide, by decide,
   cmd_start_idempotent ("A") ("B") ("3") 3 [(("sprints"), Json.obj [])]
     [] [] (by decide) (by decide) (by decide) (by decide)⟩

/-- Witness: the frame property of `start 4` and `complete 4` on a ledger
with one other entry and one other top-level field. -/
theorem frame_effect_witness :
    pyInt? ("4") = some 4 ∧
    dictGet [(("sprints"), Json.obj [(("009"), Json.obj [])]),
        (("note"), Json.str ("keep"))] ("sprints") =
      some (Json.obj [(("009"), Json.obj [])]) ∧
    (dictGet [(("009"), Json.obj [])] (formatKey 4)).getD (Json.obj []) =
      Json.obj [] ∧
    ((dictGet ([] : List (String × Json)) ("status") ≠
        some (Json.str ("completed")) →
      ∃ data2 sprints2 r,
      cmd_start ("A") ("4") (Json.obj [(("sprints"),
          Json.obj [(("009"), Json.obj [])]), (("note"), Json.str ("keep"))]) =
        some r ∧
      r.saved = some (Json.obj data2) ∧
      dictGet data2 ("sprints") = some (Json.obj sprints2) ∧
      (∀ k, k ≠ formatKey 4 →
        dictGet sprints2 k = dictGet [(("009"), Json.obj [])] k) ∧
      (∀ k, k ≠ ("sprints") → dictGet data2 k =
        dictGet [(("sprints"), Json.obj [(("009"), Json.obj [])]),
          (("note"), Json.str ("keep"))] k)) ∧
    (∃ data2 sprints2 r,
      cmd_complete ("B") ("C") ("4") (Json.obj [(("sprints"),
          Json.obj [(("009"), Json.obj [])]), (("note"), Json.str ("keep"))]) =
        some r ∧
      r.saved = some (Json.obj data2) ∧
      dictGet data2 ("sprints") = some (Json.obj sprints2) ∧
      (∀ k, k ≠ formatKey 4 →
        dictGet sprints2 k = dictGet [(("009"), Json.obj [])] k) ∧
      (∀ k, k ≠ ("sprints") → dictGet data2 k =
        dictGet [(("sprints"), Json.obj [(("009"), Json.obj [])]),
          (("note"), Json.str ("keep"))] k))) :=
  ⟨by decide, by decide, by decide,
   frame_effect ("A") ("B") ("C") ("4") 4
     [(("sprints"), Json.obj [(("009"), Json.obj [])]),
      (("note"), Json.str ("keep"))]
     [(("009"), Json.obj [])] []
     (by decide) (by decide) (by decide)⟩

/-- Witness: an unknown command is refused with the usage text and the file
untouched. -/
theorem main_bad_invocations_witness :
    main ("H") [] ("T1") ("T2") [("frobnicate")] none =
      some ⟨none, 1, [("Unknown command: ") ++ ("frobnicate"), usageDoc]⟩ :=
  (main_bad_invocations ("H") [] ("T1") ("T2") none).2.2.2 ("frobnicate") []
    (by decide) (by decide) (by decide)

/-- Witness: `stats` over two discovered files and an empty ledger prints
the two header lines and one row per file in ascending order. -/
theorem stats_rows_amended_witness :
    _discover_sprints [("SPRINT-001.md"), ("SPRINT-002.md")] ≠ [] ∧
    cmd_stats ("H") [("SPRINT-001.md"), ("SPRINT-002.md")]
        (Json.obj [(("sprints"), Json.obj [])]) =
      some [statsHeader, statsRule,
        ("SPRINT-001  pending       -                       -                     "),
        ("SPRINT-002  pending       -                       -                     ")] ∧
    (List.Sorted (· ≤ ·)
      (_discover_sprints [("SPRINT-001.md"), ("SPRINT-002.md")]) ∧
    List.Perm (_discover_sprints [("SPRINT-001.md"), ("SPRINT-002.md")])
      ([("SPRINT-001.md"), ("SPRINT-002.md")].filterMap parseSprintName) ∧
    ∃ top sprints rows2,
      (Json.obj [(("sprints"), Json.obj [])]).asObj = some top ∧
      ((dictGet top ("sprints")).getD (Json.obj [])).asObj = some sprints ∧
      [statsHeader, statsRule,
        ("SPRINT-001  pending       -                       -                     "),
        ("SPRINT-002  pending       -                       -                     ")] =
        statsHeader :: statsRule :: rows2 ∧
      List.Forall₂ (fun n row => statsRow sprints n = some row)
        (_discover_sprints [("SPRINT-001.md"), ("SPRINT-002.md")]) rows2) :=
  ⟨by decide, by decide,
   stats_rows_amended ("H") [("SPRINT-001.md"), ("SPRINT-002.md")]
     (Json.obj [(("sprints"), Json.obj [])])
     [statsHeader, statsRule,
       ("SPRINT-001  pending       -                       -                     "),
       ("SPRINT-002  pending       -                       -                     ")]
     (by decide) (by decide)⟩

end SprintLedger
